import Mathlib

/-!
# falcon-OS paging: page descriptors, frame bitmap, page directory

A shallow embedding of `src/paging.cpp`.  Machine words (`uint32_t`) are
natural numbers; arithmetic that can leave the 32-bit range is reduced
modulo `2 ^ 32` where the source computes it.  The frame bitmap
`frameTable_` is a raw pointer in the source and is modelled as a map from
cell index to cell word.  The directory arrays have a declared length, so
`getPage` indexes them through a total index and an access outside the array
makes the result undefined (`none`); `getPageRaw` is the same function on the
memory words the arrays occupy, where an index past the end of an array reads
and writes the word that lies there.
-/

namespace FalconOS

/-! ## PageDescriptor -/

/-- One page table entry: the single word `pageDescriptorWord_`. -/
structure PageDescriptor where
  pageDescriptorWord_ : Nat

/-- Source: `pageDescriptorWord_ |= (frameAddress << 12);` on `uint32_t`. -/
def PageDescriptor.setFrameAddress (pd : PageDescriptor) (frameAddress : Nat) :
    PageDescriptor :=
  ⟨pd.pageDescriptorWord_ ||| ((frameAddress <<< 12) % 2 ^ 32)⟩

/-- Source: `if (option) word |= (1 << offset); else word &= ~(1 << offset);`
(the mask `~(1 << offset)` is the 32-bit complement; `offset < 32`). -/
def PageDescriptor.setFlagValue (pd : PageDescriptor) (option : Bool) (offset : Nat) :
    PageDescriptor :=
  if option then
    ⟨pd.pageDescriptorWord_ ||| (1 <<< offset)⟩
  else
    ⟨pd.pageDescriptorWord_ &&& (0xffffffff ^^^ (1 <<< offset))⟩

/-- Source: `return (pageDescriptorWord_ >> 12);`. -/
def PageDescriptor.getFrameAddress (pd : PageDescriptor) : Nat :=
  pd.pageDescriptorWord_ >>> 12

/-- Source: `return (pageDescriptorWord_ & (1 << offset));` converted to `bool`. -/
def PageDescriptor.getFlagValue (pd : PageDescriptor) (offset : Nat) : Bool :=
  pd.pageDescriptorWord_ &&& (1 <<< offset) != 0

/-! ## Frames -/

/-- The frame allocator state: the bitmap cells `frameTable_[i]` and the frame
count `maxFrameTables_`. -/
structure Frames where
  frameTable_ : Nat → Nat
  maxFrameTables_ : Nat

/-- Source: `return frameAddress/32;`. -/
def Frames.indexFromBit (frameAddress : Nat) : Nat := frameAddress / 32

/-- Source: `return frameAddress%32;`. -/
def Frames.offsetFromBit (frameAddress : Nat) : Nat := frameAddress % 32

/-- Source: `return frameAddress/(0x1000 * 32);`. -/
def Frames.getFrameIndex (frameAddress : Nat) : Nat := frameAddress / (0x1000 * 32)

/-- Source: `return ( frameAddress/0x1000 ) % 32;`. -/
def Frames.getFrameOffset (frameAddress : Nat) : Nat := (frameAddress / 0x1000) % 32

/-- Source: `frameTable_[getFrameIndex(a)] |= (0x1 << getFrameOffset(a));`. -/
def Frames.setFrame (fr : Frames) (frameAddress : Nat) : Frames :=
  { fr with
    frameTable_ := fun i =>
      if i = Frames.getFrameIndex frameAddress then
        fr.frameTable_ i ||| (0x1 <<< Frames.getFrameOffset frameAddress)
      else fr.frameTable_ i }

/-- Source: `frameTable_[getFrameIndex(a)] &= ~(0x1 << getFrameOffset(a));`. -/
def Frames.clearFrame (fr : Frames) (frameAddress : Nat) : Frames :=
  { fr with
    frameTable_ := fun i =>
      if i = Frames.getFrameIndex frameAddress then
        fr.frameTable_ i &&& (0xffffffff ^^^ (0x1 <<< Frames.getFrameOffset frameAddress))
      else fr.frameTable_ i }

/-- Source: `return (frameTable_[getFrameIndex(a)] & (0x1 << getFrameOffset(a)));`
converted to `bool`. -/
def Frames.checkFrame (fr : Frames) (frameAddress : Nat) : Bool :=
  fr.frameTable_ (Frames.getFrameIndex frameAddress)
    &&& (0x1 <<< Frames.getFrameOffset frameAddress) != 0

/-- Inner loop of `firstFreeFrame`: `for (uint16_t j = 0; j < 32; ++j)` over the
cell word `cell` of cell `i`; `n` is the number of iterations left.  Returns
`(i*32) + j` at the first `j` with `!(cell & (0x1 << j))`, and `none` when the
loop ends without a `return`. -/
def Frames.scanBits (cell i : Nat) : Nat → Nat → Option Nat
  | 0, _ => none
  | n + 1, j =>
    if cell &&& (0x1 <<< j) = 0 then some (i * 32 + j)
    else Frames.scanBits cell i n (j + 1)

/-- Outer loop of `firstFreeFrame`:
`for (uint16_t i = 0; i < indexFromBit(maxFrameTables_); ++i)`.
The counter is 16 bits wide, so `++i` is `(i + 1) % 65536`.  The outer `none`
is "out of fuel"; `some none` is "the loop ended and control reached the end
of the function body, which has no `return`"; `some (some k)` is
`return k`. -/
def Frames.scanCells (fr : Frames) : Nat → Nat → Option (Option Nat)
  | 0, _ => none
  | fuel + 1, i =>
    if i < Frames.indexFromBit fr.maxFrameTables_ then
      if fr.frameTable_ i ≠ 0xffffffff then
        match Frames.scanBits (fr.frameTable_ i) i 32 0 with
        | some k => some (some k)
        | none => Frames.scanCells fr fuel ((i + 1) % 65536)
      else Frames.scanCells fr fuel ((i + 1) % 65536)
    else some none

/-- Iterations after which the outer loop of `firstFreeFrame` has either
finished or revisits cell 0 with the bitmap unchanged (see
`scanCells_fuel_stable`). -/
def Frames.scanFuel : Nat := 65537

/-- Source: `Frames::firstFreeFrame`.  `none`: the loop never ends;
`some none`: the function ends without returning a value;
`some (some k)`: it returns `k`. -/
def Frames.firstFreeFrame (fr : Frames) : Option (Option Nat) :=
  Frames.scanCells fr Frames.scanFuel 0

/-- Source: `Frames::allocateFrame`.  The result is `none` when
`firstFreeFrame` does not return a value (the value of `index` is then
undefined). -/
def Frames.allocateFrame (fr : Frames) (pageDescriptor : PageDescriptor)
    (userMode writable : Bool) : Option (Frames × PageDescriptor) :=
  if pageDescriptor.getFrameAddress ≠ 0 then some (fr, pageDescriptor)
  else
    match Frames.firstFreeFrame fr with
    | some (some index) =>
      if index = (0x1 <<< 31) - 1 then some (fr, pageDescriptor)
      else
        some (Frames.setFrame fr ((index * 0x1000) % 2 ^ 32),
          (((pageDescriptor.setFlagValue true 0).setFlagValue userMode 2).setFlagValue
            writable 1).setFrameAddress index)
    | _ => none

/-- Source: `Frames::freeFrame`. -/
def Frames.freeFrame (fr : Frames) (pageDescriptor : PageDescriptor) :
    Frames × PageDescriptor :=
  if pageDescriptor.getFrameAddress = 0 then (fr, pageDescriptor)
  else
    (Frames.clearFrame fr pageDescriptor.getFrameAddress,
      pageDescriptor.setFrameAddress 0x0)

/-- Bit `offsetFromBit n` of cell `indexFromBit n`: the used flag of frame
number `n`, the test `frameTable_[i] & (0x1 << j)` of `firstFreeFrame` at
`n = i*32 + j`. -/
def Frames.frameBit (fr : Frames) (n : Nat) : Bool :=
  fr.frameTable_ (Frames.indexFromBit n) &&& (0x1 <<< Frames.offsetFromBit n) != 0

end FalconOS

namespace FalconOS
open Frames PageDescriptor

/-! ## Concrete states used in the examples below -/

/-- A bitmap of 33 frames: cell 0 full, frame 32 free. -/
def cap33 : Frames := ⟨fun i => if i = 0 then 0xffffffff else 0, 33⟩

/-- An all-free bitmap of 31 frames: no whole cell. -/
def free31 : Frames := ⟨fun _ => 0, 31⟩

/-- A bitmap of 34 frames: cell 0 full, frames 32 and 33 free. -/
def cap34 : Frames := ⟨fun i => if i = 0 then 0xffffffff else 0, 34⟩

/-- A bitmap of 40 frames: cell 0 full, frames 32 to 39 free. -/
def cap40 : Frames := ⟨fun i => if i = 0 then 0xffffffff else 0, 40⟩

/-- A bitmap of 64 frames: cell 0 full, cell 1 empty. -/
def cap64 : Frames := ⟨fun i => if i = 0 then 0xffffffff else 0, 64⟩

/-- An all-free bitmap of 64 frames. -/
def free64 : Frames := ⟨fun _ => 0, 64⟩

/-- A bitmap of 64 frames with only frame 0 used. -/
def used0 : Frames := ⟨fun i => if i = 0 then 1 else 0, 64⟩

/-- A bitmap of 64 frames, all used. -/
def full64 : Frames := ⟨fun _ => 0xffffffff, 64⟩

/-- A bitmap of 64 frames with frames 0 and 1 used. -/
def used01 : Frames := ⟨fun i => if i = 0 then 3 else 0, 64⟩

/-- One iteration of the outer loop at cell `i` goes on to the next cell. -/
def continues (fr : Frames) (i : Nat) : Prop :=
  i < indexFromBit fr.maxFrameTables_ ∧
    (fr.frameTable_ i = 0xffffffff ∨ scanBits (fr.frameTable_ i) i 32 0 = none)

/-! ## Placement allocator, page directory and paging manager -/

/-- Modelled from the spec: the bump allocator `PlacementMemoryManager` is
declared outside `paging.cpp`; the paging code reads its watermark
`placementAddress_` and calls `kMalloc`. -/
structure PlacementMemoryManager where
  placementAddress_ : Nat

/-- The signature of `PlacementMemoryManager::kMalloc(size, align)`: the
address of the block and the allocator afterwards. -/
abbrev KMalloc : Type := PlacementMemoryManager → Nat → Nat → Nat × PlacementMemoryManager

/-- Modelled from the spec: `PlacementMemoryManager::kMalloc`, the bump
allocator's `allocate(sizeBytes, pageAligned) -> physicalAddress`.  With
`align` set the watermark is first rounded up to a multiple of 4096; the block
starts at the watermark, which then moves past it. -/
def PlacementMemoryManager.kMalloc : KMalloc := fun pm size align =>
  let start :=
    if align ≠ 0 ∧ pm.placementAddress_ % 0x1000 ≠ 0 then
      (pm.placementAddress_ / 0x1000 + 1) * 0x1000
    else pm.placementAddress_
  (start, ⟨start + size⟩)

/-- Modelled from the spec: `PageDirectory` is declared in `paging.h`, which is
not part of the sources.  `pageTablesVirtual_[i]` is the pointer to the page
table of slot `i` (0 is the null pointer) and `pageTablesPhysical_[i]` the
hardware-visible word of slot `i`. -/
structure PageDirectory where
  pageTablesVirtual_ : Nat → Nat
  pageTablesPhysical_ : Nat → Nat

/-- Modelled from the spec: the length of `pageTablesVirtual_` and of
`pageTablesPhysical_` ("an array of 1024 entries"). -/
def directoryLength : Nat := 1024

/-- Modelled from the spec: the length of `PageTable::pages_` ("an array of
1024 Page Table Entries"). -/
def tableLength : Nat := 1024

/-- Modelled from the spec: `sizeof(PageTable)`, 1024 entries of one 32-bit
word. -/
def sizeofPageTable : Nat := 0x1000

/-- Modelled from the spec: `sizeof(PageDirectory)`, two arrays of 1024 32-bit
words. -/
def sizeofPageDirectory : Nat := 0x2000

/-- Total array index: `some i` inside an array of the given length, `none`
outside it. -/
def index? (length i : Nat) : Option Nat := if i < length then some i else none

/-- Source, `getPage`: `address |= 0x1000; uint32_t tableIndex = address/1024;`. -/
def PagingManager.tableIndex (address : Nat) : Nat := (address ||| 0x1000) / 1024

/-- Source, `getPage`: `address |= 0x1000; uint32_t pageIndex = address%1024;`. -/
def PagingManager.pageIndex (address : Nat) : Nat := (address ||| 0x1000) % 1024

/-- Source: `PagingManager::getPage`.  The returned pointer
`&(pageTablesVirtual_[tableIndex]->pages_[pageIndex])` is the pair of the table
pointer and the slot; the inner `none` is `return 0`.  The result is `none`
when an index lies outside its array (the access is then undefined).  The new
table is not cleared (the `memset` is commented out); pointers are 32-bit, so
the cast `(uint32_t)` keeps the value. -/
def PagingManager.getPage (kMalloc : KMalloc) (pm : PlacementMemoryManager) (address : Nat)
    (make : Bool) (pageDirectory : PageDirectory) :
    Option (Option (Nat × Nat) × PageDirectory × PlacementMemoryManager) :=
  match index? directoryLength (PagingManager.tableIndex address),
      index? tableLength (PagingManager.pageIndex address) with
  | some tableIndex, some pageIndex =>
    if pageDirectory.pageTablesVirtual_ tableIndex ≠ 0 then
      some (some (pageDirectory.pageTablesVirtual_ tableIndex, pageIndex), pageDirectory, pm)
    else if make then
      let r := kMalloc pm sizeofPageTable 1
      some (some (r.1, pageIndex),
        { pageTablesVirtual_ := fun i =>
            if i = tableIndex then r.1 else pageDirectory.pageTablesVirtual_ i
          pageTablesPhysical_ := fun i =>
            if i = tableIndex then r.1 ||| 0x7 else pageDirectory.pageTablesPhysical_ i },
        r.2)
    else some (none, pageDirectory, pm)
  | _, _ => none

/-- Source: `PagingManager::getPage`, read on the memory words the two arrays
occupy.  `mem` gives the 32-bit word at each word address; `virtualBase` and
`physicalBase` are the word addresses of `pageTablesVirtual_[0]` and
`pageTablesPhysical_[0]`, so `pageTablesVirtual_[i]` is the word at
`(virtualBase + i) % 2 ^ 30` (byte addresses are 32 bits wide), inside the
array or past its end, and likewise for `pageTablesPhysical_[i]`.  The source
reads `pageTablesVirtual_[tableIndex]` again after each store, and so does this
definition.  The state of the placement allocator is taken to lie outside the
words written. -/
def PagingManager.getPageRaw (kMalloc : KMalloc) (pm : PlacementMemoryManager)
    (mem : Nat → Nat) (virtualBase physicalBase address : Nat) (make : Bool) :
    Option (Nat × Nat) × (Nat → Nat) × PlacementMemoryManager :=
  let v := (virtualBase + PagingManager.tableIndex address) % 2 ^ 30
  let p := (physicalBase + PagingManager.tableIndex address) % 2 ^ 30
  if mem v ≠ 0 then (some (mem v, PagingManager.pageIndex address), mem, pm)
  else if make then
    let r := kMalloc pm sizeofPageTable 1
    let mem₁ : Nat → Nat := fun a => if a = v then r.1 else mem a
    let mem₂ : Nat → Nat := fun a => if a = p then mem₁ v ||| 0x7 else mem₁ a
    (some (mem₂ v, PagingManager.pageIndex address), mem₂, r.2)
  else (none, mem, pm)

/-- The objects a `PagingManager` works on: the `Frames` object, the kernel
directory, the entries of the page tables (`pages_ p s` is entry `s` of the
table at address `p`) and the placement allocator. -/
structure PagingManager where
  frames : Frames
  kernelDirectory : PageDirectory
  pages_ : Nat → Nat → PageDescriptor
  placementMemoryManager : PlacementMemoryManager

/-- Source, constructor of `PagingManager`:
`while(i < placementAddress_) { frames->allocateFrame(getPage(i, 1, kernelDirectory), 1, 0); i += 0x1000; }`.
The outer `none` is "out of fuel"; `some none` is an undefined step (an index
outside its array, a null entry pointer, or `allocateFrame` without a defined
`index`). -/
def PagingManager.mapLoop (kMalloc : KMalloc) :
    Nat → Nat → PagingManager → Option (Option PagingManager)
  | 0, _, _ => none
  | fuel + 1, i, m =>
    if i < m.placementMemoryManager.placementAddress_ then
      match PagingManager.getPage kMalloc m.placementMemoryManager i true m.kernelDirectory with
      | some (some (p, s), dir, pm) =>
        match Frames.allocateFrame m.frames (m.pages_ p s) true false with
        | some (fr, pd) =>
          PagingManager.mapLoop kMalloc fuel ((i + 0x1000) % 2 ^ 32)
            { frames := fr
              kernelDirectory := dir
              pages_ := fun p' s' => if p' = p ∧ s' = s then pd else m.pages_ p' s'
              placementMemoryManager := pm }
        | none => some none
      | _ => some none
    else some (some m)

/-- Source: `PagingManager::PagingManager(capacity, frames, placementMemoryManager)`.
Nothing is cleared (both `memset` calls are commented out), so the memory the
bitmap, the directory and the tables are placed in is an input: `frameTable`,
`directory`, `pages`.  The loop counter `uint32_t i;` is not initialised; `i₀`
is the value it starts with.  `switchPageDirectory` only loads registers. -/
def PagingManager.construct (kMalloc : KMalloc) (fuel : Nat) (capacity : Nat)
    (frameTable : Nat → Nat) (directory : PageDirectory) (pages : Nat → Nat → PageDescriptor)
    (placementMemoryManager : PlacementMemoryManager) (i₀ : Nat) :
    Option (Option PagingManager) :=
  let frames : Frames := { frameTable_ := frameTable, maxFrameTables_ := capacity / 0x1000 }
  let r₁ := kMalloc placementMemoryManager frames.maxFrameTables_ 0
  let r₂ := kMalloc r₁.2 sizeofPageDirectory 1
  PagingManager.mapLoop kMalloc fuel i₀
    { frames := frames
      kernelDirectory := directory
      pages_ := pages
      placementMemoryManager := r₂.2 }

/-- Source: the constructor `PageDescriptor(frameAddress, written, accessed,
userMode, writable, present)`, applied to the word the object's memory holds. -/
def PageDescriptor.construct (init : PageDescriptor) (frameAddress : Nat)
    (written accessed userMode writable present : Bool) : PageDescriptor :=
  (((((init.setFrameAddress frameAddress).setFlagValue written 6).setFlagValue
    accessed 5).setFlagValue userMode 2).setFlagValue writable 1).setFlagValue present 0

/-- An empty directory: every slot null. -/
def emptyDirectory : PageDirectory := ⟨fun _ => 0, fun _ => 0⟩

/-- Page table memory holding zero words. -/
def zeroPages : Nat → Nat → PageDescriptor := fun _ _ => ⟨0⟩

/-- A directory whose only table, at address `0x5000`, is in slot 4. -/
def slot4Directory : PageDirectory :=
  ⟨fun i => if i = 4 then 0x5000 else 0, fun i => if i = 4 then 0x5007 else 0⟩

/-- The entry `getPage(address, 0, kernelDirectory)` returns after construction:
its frame number and its present, writable and userMode flags; `none` when
the call is undefined or returns null. -/
def lookupAfter (m : PagingManager) (address : Nat) : Option (Nat × Bool × Bool × Bool) :=
  match PagingManager.getPage PlacementMemoryManager.kMalloc m.placementMemoryManager address
      false m.kernelDirectory with
  | some (some e, _, _) =>
    some ((m.pages_ e.1 e.2).getFrameAddress, (m.pages_ e.1 e.2).getFlagValue 0,
      (m.pages_ e.1 e.2).getFlagValue 1, (m.pages_ e.1 e.2).getFlagValue 2)
  | _ => none

/-! ## Bit-level facts -/

theorem land_one_shiftLeft_eq_zero_iff (w o : Nat) :
    w &&& (1 <<< o) = 0 ↔ w.testBit o = false := by
  rw [Nat.one_shiftLeft]
  constructor
  · intro h
    have h1 : (w &&& 2 ^ o).testBit o = false := by rw [h]; exact Nat.zero_testBit o
    simpa [Nat.testBit_two_pow_self] using h1
  · intro h
    apply Nat.eq_of_testBit_eq
    intro i
    by_cases hi : o = i
    · subst hi; simp [h]
    · simp [Nat.testBit_two_pow_of_ne hi]

theorem land_one_shiftLeft_bne_zero (w o : Nat) :
    (w &&& (1 <<< o) != 0) = w.testBit o := by
  cases h : w.testBit o
  · have := (land_one_shiftLeft_eq_zero_iff w o).2 h
    simp [this]
  · have : w &&& (1 <<< o) ≠ 0 := by
      intro h0
      have := (land_one_shiftLeft_eq_zero_iff w o).1 h0
      simp [h] at this
    simp [this]

theorem testBit_lor_one_shiftLeft (w o b : Nat) :
    (w ||| (1 <<< o)).testBit b = (w.testBit b || decide (o = b)) := by
  rw [Nat.one_shiftLeft, Nat.testBit_or, Nat.testBit_two_pow]

theorem testBit_land_not_one_shiftLeft (w o b : Nat) :
    (w &&& (0xffffffff ^^^ (1 <<< o))).testBit b
      = (w.testBit b && (decide (b < 32) != decide (o = b))) := by
  have h : (0xffffffff : Nat) = 2 ^ 32 - 1 := by norm_num
  rw [Nat.one_shiftLeft, h, Nat.testBit_and, Nat.testBit_xor, Nat.testBit_two_pow_sub_one,
    Nat.testBit_two_pow]

theorem getFlagValue_eq_testBit (pd : PageDescriptor) (o : Nat) :
    pd.getFlagValue o = pd.pageDescriptorWord_.testBit o :=
  land_one_shiftLeft_bne_zero _ _

theorem frameBit_eq_testBit (fr : Frames) (n : Nat) :
    frameBit fr n = (fr.frameTable_ (n / 32)).testBit (n % 32) :=
  land_one_shiftLeft_bne_zero _ _

theorem checkFrame_eq_testBit (fr : Frames) (a : Nat) :
    checkFrame fr a = (fr.frameTable_ (a / (0x1000 * 32))).testBit ((a / 0x1000) % 32) :=
  land_one_shiftLeft_bne_zero _ _

/-- For a frame number `n`, `checkFrame` at the byte address `n * 0x1000` reads
the bit of frame `n`. -/
theorem checkFrame_mul (fr : Frames) (n : Nat) :
    checkFrame fr (n * 0x1000) = frameBit fr n := by
  rw [checkFrame_eq_testBit, frameBit_eq_testBit]
  have h1 : n * 0x1000 / (0x1000 * 32) = n / 32 := by omega
  have h2 : n * 0x1000 / 0x1000 = n := by omega
  rw [h1, h2]

/-! ## The scan of `firstFreeFrame` -/

/-- The inner loop returns the first clear bit at or after `j`. -/
theorem scanBits_found (cell i : Nat) :
    ∀ (n j b : Nat), j ≤ b → b < j + n → cell.testBit b = false →
      (∀ m, j ≤ m → m < b → cell.testBit m = true) →
      scanBits cell i n j = some (i * 32 + b) := by
  intro n
  induction n with
  | zero => intro j b h1 h2; omega
  | succ n ih =>
    intro j b h1 h2 hb hlow
    unfold scanBits
    by_cases hj : j = b
    · subst hj
      rw [if_pos ((land_one_shiftLeft_eq_zero_iff cell j).2 hb)]
    · have hset : cell.testBit j = true := hlow j (Nat.le_refl j) (by omega)
      have hne : ¬ (cell &&& (0x1 <<< j) = 0) := by
        intro h0
        have := (land_one_shiftLeft_eq_zero_iff cell j).1 h0
        simp [hset] at this
      rw [if_neg hne]
      exact ih (j + 1) b (by omega) (by omega) hb (fun m hm1 hm2 => hlow m (by omega) hm2)

/-- The inner loop ends without a `return` when every scanned bit is set. -/
theorem scanBits_all_set (cell i : Nat) :
    ∀ (n j : Nat), (∀ m, j ≤ m → m < j + n → cell.testBit m = true) →
      scanBits cell i n j = none := by
  intro n
  induction n with
  | zero => intro j _; rfl
  | succ n ih =>
    intro j hall
    unfold scanBits
    have hset : cell.testBit j = true := hall j (Nat.le_refl j) (by omega)
    have hne : ¬ (cell &&& (0x1 <<< j) = 0) := by
      intro h0
      have := (land_one_shiftLeft_eq_zero_iff cell j).1 h0
      simp [hset] at this
    rw [if_neg hne]
    exact ih (j + 1) (fun m hm1 hm2 => hall m (by omega) (by omega))

/-- Whatever the inner loop returns is a clear bit of the cell, below 32 bits
past the start, with every scanned bit before it set. -/
theorem scanBits_some (cell i : Nat) :
    ∀ (n j r : Nat), scanBits cell i n j = some r →
      ∃ b, j ≤ b ∧ b < j + n ∧ r = i * 32 + b ∧ cell.testBit b = false ∧
        ∀ m, j ≤ m → m < b → cell.testBit m = true := by
  intro n
  induction n with
  | zero => intro j r h; simp [scanBits] at h
  | succ n ih =>
    intro j r h
    unfold scanBits at h
    by_cases h0 : cell &&& (0x1 <<< j) = 0
    · rw [if_pos h0] at h
      refine ⟨j, Nat.le_refl j, by omega, ?_, (land_one_shiftLeft_eq_zero_iff cell j).1 h0, ?_⟩
      · exact (Option.some.inj h).symm
      · intro m hm1 hm2; omega
    · rw [if_neg h0] at h
      obtain ⟨b, hb1, hb2, hb3, hb4, hb5⟩ := ih (j + 1) r h
      refine ⟨b, by omega, by omega, hb3, hb4, ?_⟩
      intro m hm1 hm2
      by_cases hmj : m = j
      · subst hmj
        cases hc : cell.testBit m
        · exact absurd ((land_one_shiftLeft_eq_zero_iff cell m).2 hc) h0
        · rfl
      · exact hb5 m (by omega) hm2

theorem full_cell_testBit (b : Nat) (hb : b < 32) : (0xffffffff : Nat).testBit b = true := by
  have h : (0xffffffff : Nat) = 2 ^ 32 - 1 := by norm_num
  rw [h, Nat.testBit_two_pow_sub_one]
  simpa using hb

/-- Starting at cell `i`, the outer loop returns the lowest free frame `k`
when `k` lies in a cell the loop reaches before its 16-bit counter wraps. -/
theorem scanCells_found (fr : Frames) (k : Nat)
    (hcell : k / 32 < indexFromBit fr.maxFrameTables_) (h16 : k / 32 < 65536)
    (hfree : frameBit fr k = false) (hlow : ∀ m, m < k → frameBit fr m = true) :
    ∀ (d i fuel : Nat), i + d = k / 32 → d < fuel →
      scanCells fr fuel i = some (some k) := by
  intro d
  induction d with
  | zero =>
    intro i fuel hi hfuel
    obtain ⟨f, rfl⟩ : ∃ f, fuel = f + 1 := ⟨fuel - 1, by omega⟩
    have hik : i = k / 32 := by omega
    unfold scanCells
    rw [if_pos (by omega)]
    have hbit : (fr.frameTable_ i).testBit (k % 32) = false := by
      rw [hik, ← frameBit_eq_testBit]; exact hfree
    have hne : fr.frameTable_ i ≠ 0xffffffff := by
      intro hfull
      rw [hfull, full_cell_testBit (k % 32) (Nat.mod_lt _ (by norm_num))] at hbit
      exact Bool.noConfusion hbit
    rw [if_pos hne]
    have hsc : scanBits (fr.frameTable_ i) i 32 0 = some (i * 32 + k % 32) := by
      apply scanBits_found _ _ 32 0 (k % 32) (Nat.zero_le _) (by omega) hbit
      intro m _ hm
      have := hlow (i * 32 + m) (by omega)
      rw [frameBit_eq_testBit] at this
      have e1 : (i * 32 + m) / 32 = i := by omega
      have e2 : (i * 32 + m) % 32 = m := by omega
      rw [e1, e2] at this
      exact this
    rw [hsc]
    have : i * 32 + k % 32 = k := by omega
    simp [this]
  | succ d ih =>
    intro i fuel hi hfuel
    obtain ⟨f, rfl⟩ : ∃ f, fuel = f + 1 := ⟨fuel - 1, by omega⟩
    unfold scanCells
    rw [if_pos (by omega)]
    have hall : ∀ m, 0 ≤ m → m < 0 + 32 → (fr.frameTable_ i).testBit m = true := by
      intro m _ hm
      have := hlow (i * 32 + m) (by omega)
      rw [frameBit_eq_testBit] at this
      have e1 : (i * 32 + m) / 32 = i := by omega
      have e2 : (i * 32 + m) % 32 = m := by omega
      rw [e1, e2] at this
      exact this
    have hnext : (i + 1) % 65536 = i + 1 := Nat.mod_eq_of_lt (by omega)
    have hrec := ih (i + 1) f (by omega) (by omega)
    by_cases hne : fr.frameTable_ i ≠ 0xffffffff
    · rw [if_pos hne, scanBits_all_set _ _ 32 0 hall, hnext]
      exact hrec
    · rw [if_neg hne, hnext]
      exact hrec

/-- A free frame in a scanned cell gives a lowest free frame, in a scanned
cell as well. -/
theorem exists_lowest_free (fr : Frames) (n : Nat) (hfree : frameBit fr n = false) :
    ∃ k, k ≤ n ∧ frameBit fr k = false ∧ ∀ m, m < k → frameBit fr m = true := by
  have hex : ∃ k, frameBit fr k = false := ⟨n, hfree⟩
  refine ⟨Nat.find hex, Nat.find_min' hex hfree, Nat.find_spec hex, ?_⟩
  intro m hm
  have := Nat.find_min hex hm
  cases h : frameBit fr m
  · exact absurd h this
  · rfl

theorem firstFreeFrame_of_lowest (fr : Frames) (k : Nat)
    (hcell : k / 32 < indexFromBit fr.maxFrameTables_) (h16 : k / 32 < 65536)
    (hfree : frameBit fr k = false) (hlow : ∀ m, m < k → frameBit fr m = true) :
    firstFreeFrame fr = some (some k) :=
  scanCells_found fr k hcell h16 hfree hlow (k / 32) 0 scanFuel (by omega)
    (by unfold scanFuel; omega)

/-! ## Page descriptor fields -/

theorem testBit_eq_false_of_lt (w i : Nat) (hw : w < 2 ^ 32) (hi : ¬ i < 32) :
    w.testBit i = false :=
  Nat.testBit_lt_two_pow
    (Nat.lt_of_lt_of_le hw (Nat.pow_le_pow_right (by norm_num) (by omega)))

/-- The frame field after `setFrameAddress` is the old field OR the low 20 bits
of the argument. -/
theorem getFrameAddress_setFrameAddress (pd : PageDescriptor) (f : Nat) :
    (pd.setFrameAddress f).getFrameAddress = pd.getFrameAddress ||| (f % 2 ^ 20) := by
  unfold PageDescriptor.setFrameAddress PageDescriptor.getFrameAddress
  apply Nat.eq_of_testBit_eq
  intro i
  simp only [Nat.testBit_shiftRight, Nat.testBit_or, Nat.testBit_mod_two_pow,
    Nat.testBit_shiftLeft]
  have e : 12 + i - 12 = i := by omega
  by_cases hi : i < 20
  · have h1 : 12 + i < 32 := by omega
    have h2 : 12 + i ≥ 12 := by omega
    simp [hi, h1, h2, e]
  · have h1 : ¬ 12 + i < 32 := by omega
    simp [hi, h1]

/-- On a 32-bit word `setFlagValue b o` writes `b` to bit `o` and keeps every
other bit. -/
theorem testBit_setFlagValue (pd : PageDescriptor) (b : Bool) (o i : Nat)
    (hw : pd.pageDescriptorWord_ < 2 ^ 32) (ho : o < 32) :
    (pd.setFlagValue b o).pageDescriptorWord_.testBit i
      = if o = i then b else pd.pageDescriptorWord_.testBit i := by
  cases b
  · simp only [PageDescriptor.setFlagValue, Bool.false_eq_true, if_false,
      testBit_land_not_one_shiftLeft]
    by_cases h : o = i
    · have hi : i < 32 := by omega
      simp [h, hi]
    · by_cases hi : i < 32
      · simp [h, hi]
      · simp [h, hi, testBit_eq_false_of_lt _ _ hw hi]
  · simp only [PageDescriptor.setFlagValue, if_true, testBit_lor_one_shiftLeft]
    by_cases h : o = i
    · simp [h]
    · simp [h]

theorem setFlagValue_lt (pd : PageDescriptor) (b : Bool) (o : Nat)
    (hw : pd.pageDescriptorWord_ < 2 ^ 32) (ho : o < 32) :
    (pd.setFlagValue b o).pageDescriptorWord_ < 2 ^ 32 := by
  cases b
  · simp only [PageDescriptor.setFlagValue, Bool.false_eq_true, if_false]
    exact Nat.lt_of_le_of_lt Nat.and_le_left hw
  · simp only [PageDescriptor.setFlagValue, if_true]
    apply Nat.or_lt_two_pow hw
    rw [Nat.one_shiftLeft]
    exact Nat.pow_lt_pow_right (by norm_num) ho

theorem getFrameAddress_setFlagValue (pd : PageDescriptor) (b : Bool) (o : Nat)
    (hw : pd.pageDescriptorWord_ < 2 ^ 32) (ho : o < 12) :
    (pd.setFlagValue b o).getFrameAddress = pd.getFrameAddress := by
  unfold PageDescriptor.getFrameAddress
  apply Nat.eq_of_testBit_eq
  intro i
  rw [Nat.testBit_shiftRight, Nat.testBit_shiftRight,
    testBit_setFlagValue pd b o (12 + i) hw (by omega), if_neg (by omega)]

theorem getFlagValue_setFlagValue (pd : PageDescriptor) (b : Bool) (o i : Nat)
    (hw : pd.pageDescriptorWord_ < 2 ^ 32) (ho : o < 32) :
    (pd.setFlagValue b o).getFlagValue i = if o = i then b else pd.getFlagValue i := by
  rw [getFlagValue_eq_testBit, getFlagValue_eq_testBit, testBit_setFlagValue pd b o i hw ho]

theorem getFlagValue_setFrameAddress (pd : PageDescriptor) (f i : Nat) (hi : i < 12) :
    (pd.setFrameAddress f).getFlagValue i = pd.getFlagValue i := by
  rw [getFlagValue_eq_testBit, getFlagValue_eq_testBit]
  unfold PageDescriptor.setFrameAddress
  simp only [Nat.testBit_or, Nat.testBit_mod_two_pow, Nat.testBit_shiftLeft]
  have h : ¬ i ≥ 12 := by omega
  simp [h]

theorem word_lt_of_frame_zero (pd : PageDescriptor) (h : pd.getFrameAddress = 0) :
    pd.pageDescriptorWord_ < 2 ^ 32 := by
  unfold PageDescriptor.getFrameAddress at h
  rw [Nat.shiftRight_eq_div_pow] at h
  have : pd.pageDescriptorWord_ < 2 ^ 12 := by
    by_contra hc
    have : 0 < pd.pageDescriptorWord_ / 2 ^ 12 := Nat.div_pos (by omega) (by norm_num)
    omega
  omega

/-- The entry that `allocateFrame` writes for frame `index`. -/
theorem allocated_entry (pd : PageDescriptor) (userMode writable : Bool) (index : Nat)
    (hpd : pd.getFrameAddress = 0) (hidx : index < 2 ^ 20) :
    let pd' := (((pd.setFlagValue true 0).setFlagValue userMode 2).setFlagValue
      writable 1).setFrameAddress index
    pd'.getFlagValue 0 = true ∧ pd'.getFlagValue 2 = userMode ∧
      pd'.getFlagValue 1 = writable ∧ pd'.getFrameAddress = index := by
  intro pd'
  have hw := word_lt_of_frame_zero pd hpd
  have hw1 := setFlagValue_lt pd true 0 hw (by norm_num)
  have hw2 := setFlagValue_lt _ userMode 2 hw1 (by norm_num)
  refine ⟨?_, ?_, ?_, ?_⟩
  · simp only [pd']
    rw [getFlagValue_setFrameAddress _ _ _ (by norm_num),
      getFlagValue_setFlagValue _ _ _ _ hw2 (by norm_num), if_neg (by norm_num),
      getFlagValue_setFlagValue _ _ _ _ hw1 (by norm_num), if_neg (by norm_num),
      getFlagValue_setFlagValue _ _ _ _ hw (by norm_num), if_pos rfl]
  · simp only [pd']
    rw [getFlagValue_setFrameAddress _ _ _ (by norm_num),
      getFlagValue_setFlagValue _ _ _ _ hw2 (by norm_num), if_neg (by norm_num),
      getFlagValue_setFlagValue _ _ _ _ hw1 (by norm_num), if_pos rfl]
  · simp only [pd']
    rw [getFlagValue_setFrameAddress _ _ _ (by norm_num),
      getFlagValue_setFlagValue _ _ _ _ hw2 (by norm_num), if_pos rfl]
  · simp only [pd']
    rw [getFrameAddress_setFrameAddress,
      getFrameAddress_setFlagValue _ _ _ hw2 (by norm_num),
      getFrameAddress_setFlagValue _ _ _ hw1 (by norm_num),
      getFrameAddress_setFlagValue _ _ _ hw (by norm_num), hpd, Nat.zero_or,
      Nat.mod_eq_of_lt hidx]

/-! ## Bitmap updates -/

theorem frameBit_setFrame (fr : Frames) (k i : Nat) :
    frameBit (setFrame fr (k * 0x1000)) i = (frameBit fr i || decide (i = k)) := by
  rw [frameBit_eq_testBit, frameBit_eq_testBit]
  have h1 : getFrameIndex (k * 0x1000) = k / 32 := by unfold getFrameIndex; omega
  have h2 : getFrameOffset (k * 0x1000) = k % 32 := by unfold getFrameOffset; omega
  simp only [setFrame, h1, h2]
  by_cases hc : i / 32 = k / 32
  · rw [if_pos hc, testBit_lor_one_shiftLeft]
    by_cases ho : k % 32 = i % 32
    · have : i = k := by omega
      simp [ho, this]
    · have : ¬ i = k := by intro h; subst h; exact ho rfl
      simp [ho, this]
  · rw [if_neg hc]
    have : ¬ i = k := by intro h; subst h; exact hc rfl
    simp [this]

theorem checkFrame_setFrame (fr : Frames) (k i : Nat) :
    checkFrame (setFrame fr (k * 0x1000)) (i * 0x1000)
      = (checkFrame fr (i * 0x1000) || decide (i = k)) := by
  rw [checkFrame_mul, checkFrame_mul, frameBit_setFrame]

/-- What `allocateFrame` does when `k` is the lowest free frame. -/
theorem allocateFrame_of_lowest (fr : Frames) (pd : PageDescriptor) (userMode writable : Bool)
    (k : Nat) (hpd : pd.getFrameAddress = 0)
    (hcell : k / 32 < indexFromBit fr.maxFrameTables_) (hk : k < 2 ^ 20)
    (hfree : frameBit fr k = false) (hlow : ∀ m, m < k → frameBit fr m = true) :
    allocateFrame fr pd userMode writable
      = some (setFrame fr (k * 0x1000),
          (((pd.setFlagValue true 0).setFlagValue userMode 2).setFlagValue
            writable 1).setFrameAddress k) := by
  have hff := firstFreeFrame_of_lowest fr k hcell (by omega) hfree hlow
  unfold allocateFrame
  rw [if_neg (by simp [hpd]), hff]
  have hne : ¬ (k = (0x1 <<< 31) - 1) := by
    have : (0x1 <<< 31) - 1 = 2147483647 := by decide
    omega
  have hmod : k * 0x1000 % 2 ^ 32 = k * 0x1000 := Nat.mod_eq_of_lt (by omega)
  simp only [hne, if_false, hmod]

/-! ## Claims -/

/-- Inside the cells the scan visits: when some frame index `n` in one of the
`indexFromBit maxFrameTables_` whole cells (and below `2 ^ 21`, the reach of the
16-bit cell counter) is free, `firstFreeFrame` returns the lowest free frame
index: the returned index is clear in the bitmap and every lower index is set.
In particular, if every index below `n` is set, it returns `n`. -/
theorem firstFreeFrame_lowest_free (fr : Frames) (n : Nat)
    (hcell : n / 32 < indexFromBit fr.maxFrameTables_) (h16 : n < 2 ^ 21)
    (hfree : frameBit fr n = false) :
    (∃ k, firstFreeFrame fr = some (some k) ∧ frameBit fr k = false ∧
        ∀ m, m < k → frameBit fr m = true) ∧
      ((∀ m, m < n → frameBit fr m = true) → firstFreeFrame fr = some (some n)) := by
  constructor
  · obtain ⟨k, hkn, hkfree, hklow⟩ := exists_lowest_free fr n hfree
    have h1 : k / 32 ≤ n / 32 := Nat.div_le_div_right hkn
    exact ⟨k, firstFreeFrame_of_lowest fr k (by omega) (by omega) hkfree hklow, hkfree, hklow⟩
  · intro hlow
    exact firstFreeFrame_of_lowest fr n hcell (by omega) hfree hlow

theorem firstFreeFrame_lowest_free_example :
    (32 / 32 < indexFromBit cap64.maxFrameTables_ ∧ 32 < 2 ^ 21 ∧ frameBit cap64 32 = false) ∧
      ((∃ k, firstFreeFrame cap64 = some (some k) ∧ frameBit cap64 k = false ∧
          ∀ m, m < k → frameBit cap64 m = true) ∧
        ((∀ m, m < 32 → frameBit cap64 m = true) → firstFreeFrame cap64 = some (some 32))) :=
  ⟨⟨by decide, by decide, by decide⟩,
    firstFreeFrame_lowest_free cap64 32 (by decide) (by decide) (by decide)⟩

/-- C1 (the code on a trailing partial cell): inside the whole cells the scan
visits `firstFreeFrame` returns the lowest free frame index.  With a capacity
of 33 frames, frames 0..31 used and frame 32 free (a free index below the
capacity, every lower index set), the loop bound `33 / 32 = 1` leaves cell 1
unscanned and control reaches the end of `firstFreeFrame` without a `return`:
frame 32 is not returned. -/
theorem firstFreeFrame_partial_cell :
    (∀ (fr : Frames) (n : Nat), n / 32 < indexFromBit fr.maxFrameTables_ → n < 2 ^ 21 →
        frameBit fr n = false →
        (∃ k, firstFreeFrame fr = some (some k) ∧ frameBit fr k = false ∧
            ∀ m, m < k → frameBit fr m = true) ∧
          ((∀ m, m < n → frameBit fr m = true) → firstFreeFrame fr = some (some n))) ∧
      32 < cap33.maxFrameTables_ ∧ frameBit cap33 32 = false ∧
      (∀ m, m < 32 → frameBit cap33 m = true) ∧
      firstFreeFrame cap33 = some none ∧ firstFreeFrame cap33 ≠ some (some 32) :=
  ⟨firstFreeFrame_lowest_free, by decide, by decide, by decide, by decide, by decide⟩

/-- Inside the cells the scan visits: for a bitmap with a free frame in a
scanned cell (index below `2 ^ 20`, so that its byte address is a 32-bit value)
and an entry whose frame field is 0,
`allocateFrame` succeeds, and exactly the frame index `k` that `firstFreeFrame`
returned changes from free to used: `checkFrame (k * 4096)` becomes true, and
`checkFrame (i * 4096)` is unchanged for every other frame index `i`.  On a
previously all-free bitmap `k` is the only used index afterwards. -/
theorem allocateFrame_marks_exactly_one (fr : Frames) (pd : PageDescriptor)
    (userMode writable : Bool) (n : Nat) (hpd : pd.getFrameAddress = 0)
    (hcell : n / 32 < indexFromBit fr.maxFrameTables_) (hn : n < 2 ^ 20)
    (hfree : checkFrame fr (n * 0x1000) = false) :
    ∃ k fr' pd', firstFreeFrame fr = some (some k) ∧
      allocateFrame fr pd userMode writable = some (fr', pd') ∧
      k < 2 ^ 20 ∧ checkFrame fr (k * 0x1000) = false ∧ checkFrame fr' (k * 0x1000) = true ∧
      (∀ i, i < 2 ^ 20 → i ≠ k → checkFrame fr' (i * 0x1000) = checkFrame fr (i * 0x1000)) ∧
      ((∀ i, i < 2 ^ 20 → checkFrame fr (i * 0x1000) = false) →
        ∀ i, i < 2 ^ 20 → (checkFrame fr' (i * 0x1000) = true ↔ i = k)) := by
  rw [checkFrame_mul] at hfree
  obtain ⟨k, hkn, hkfree, hklow⟩ := exists_lowest_free fr n hfree
  have h1 : k / 32 ≤ n / 32 := Nat.div_le_div_right hkn
  have hk : k < 2 ^ 20 := by omega
  refine ⟨k, _, _, firstFreeFrame_of_lowest fr k (by omega) (by omega) hkfree hklow,
    allocateFrame_of_lowest fr pd userMode writable k hpd (by omega) hk hkfree hklow,
    hk, ?_, ?_, ?_, ?_⟩
  · rw [checkFrame_mul]; exact hkfree
  · rw [checkFrame_setFrame]; simp
  · intro i _ hik
    rw [checkFrame_setFrame]; simp [hik]
  · intro hall i hi
    rw [checkFrame_setFrame, hall i hi]
    simp

theorem allocateFrame_marks_exactly_one_example :
    (PageDescriptor.getFrameAddress ⟨0⟩ = 0 ∧ 5 / 32 < indexFromBit free64.maxFrameTables_ ∧
        5 < 2 ^ 20 ∧ checkFrame free64 (5 * 0x1000) = false) ∧
      ∃ k fr' pd', firstFreeFrame free64 = some (some k) ∧
        allocateFrame free64 ⟨0⟩ true false = some (fr', pd') ∧
        k < 2 ^ 20 ∧ checkFrame free64 (k * 0x1000) = false ∧
        checkFrame fr' (k * 0x1000) = true ∧
        (∀ i, i < 2 ^ 20 → i ≠ k →
          checkFrame fr' (i * 0x1000) = checkFrame free64 (i * 0x1000)) ∧
        ((∀ i, i < 2 ^ 20 → checkFrame free64 (i * 0x1000) = false) →
          ∀ i, i < 2 ^ 20 → (checkFrame fr' (i * 0x1000) = true ↔ i = k)) :=
  ⟨⟨by decide, by decide, by decide, by decide⟩,
    allocateFrame_marks_exactly_one free64 ⟨0⟩ true false 5 (by decide) (by decide)
      (by decide) (by decide)⟩

/-- C2 (the code on a bitmap without a whole cell): inside the scanned cells
`allocateFrame` marks exactly the frame `firstFreeFrame` returned.  With a
capacity of 31 frames, all free, and an entry whose frame field is 0, the scan
visits `31 / 32 = 0` cells, `firstFreeFrame` ends without a `return`, and
`allocateFrame` goes on with an undefined `index`: it has no defined result
that marks one free frame. -/
theorem allocateFrame_partial_cell_marks :
    (∀ (fr : Frames) (pd : PageDescriptor) (userMode writable : Bool) (n : Nat),
        pd.getFrameAddress = 0 → n / 32 < indexFromBit fr.maxFrameTables_ → n < 2 ^ 20 →
        checkFrame fr (n * 0x1000) = false →
        ∃ k fr' pd', firstFreeFrame fr = some (some k) ∧
          allocateFrame fr pd userMode writable = some (fr', pd') ∧
          k < 2 ^ 20 ∧ checkFrame fr (k * 0x1000) = false ∧
          checkFrame fr' (k * 0x1000) = true ∧
          (∀ i, i < 2 ^ 20 → i ≠ k →
            checkFrame fr' (i * 0x1000) = checkFrame fr (i * 0x1000)) ∧
          ((∀ i, i < 2 ^ 20 → checkFrame fr (i * 0x1000) = false) →
            ∀ i, i < 2 ^ 20 → (checkFrame fr' (i * 0x1000) = true ↔ i = k))) ∧
      PageDescriptor.getFrameAddress ⟨0⟩ = 0 ∧ 0 < free31.maxFrameTables_ ∧
      (∀ i, i < free31.maxFrameTables_ → checkFrame free31 (i * 0x1000) = false) ∧
      firstFreeFrame free31 = some none ∧
      (allocateFrame free31 ⟨0⟩ true false).isSome = false :=
  ⟨allocateFrame_marks_exactly_one, by decide, by decide, by decide, by decide, by decide⟩

/-- Inside the cells the scan visits: with two distinct free frames `n₁`, `n₂`
in scanned cells (indices below `2 ^ 20`) and two entries whose frame fields
are 0,
`allocateFrame` on the first entry and then on the second succeeds both times
and binds two distinct frame indices, each of which was free before the first
call. -/
theorem allocateFrame_twice_distinct (fr : Frames) (pd₁ pd₂ : PageDescriptor)
    (u₁ w₁ u₂ w₂ : Bool) (n₁ n₂ : Nat)
    (hpd₁ : pd₁.getFrameAddress = 0) (hpd₂ : pd₂.getFrameAddress = 0)
    (hcell₁ : n₁ / 32 < indexFromBit fr.maxFrameTables_) (hn₁ : n₁ < 2 ^ 20)
    (hfree₁ : checkFrame fr (n₁ * 0x1000) = false)
    (hcell₂ : n₂ / 32 < indexFromBit fr.maxFrameTables_) (hn₂ : n₂ < 2 ^ 20)
    (hfree₂ : checkFrame fr (n₂ * 0x1000) = false) (hne : n₁ ≠ n₂) :
    ∃ fr₁ pd₁' fr₂ pd₂', allocateFrame fr pd₁ u₁ w₁ = some (fr₁, pd₁') ∧
      allocateFrame fr₁ pd₂ u₂ w₂ = some (fr₂, pd₂') ∧
      pd₁'.getFrameAddress ≠ pd₂'.getFrameAddress ∧
      checkFrame fr (pd₁'.getFrameAddress * 0x1000) = false ∧
      checkFrame fr (pd₂'.getFrameAddress * 0x1000) = false := by
  rw [checkFrame_mul] at hfree₁ hfree₂
  obtain ⟨k, hkn, hkfree, hklow⟩ := exists_lowest_free fr n₁ hfree₁
  have hk : k < 2 ^ 20 := by omega
  have hkc : k / 32 ≤ n₁ / 32 := Nat.div_le_div_right hkn
  have hkn₂ : k ≤ n₂ := by
    by_contra hc
    have := hklow n₂ (by omega)
    rw [hfree₂] at this
    exact Bool.noConfusion this
  -- a frame other than `k` is still free after the first call
  obtain ⟨n, hnc, hn, hnk, hnfree⟩ : ∃ n, n / 32 < indexFromBit fr.maxFrameTables_ ∧
      n < 2 ^ 20 ∧ n ≠ k ∧ frameBit fr n = false := by
    by_cases h : n₁ = k
    · exact ⟨n₂, hcell₂, hn₂, by omega, hfree₂⟩
    · exact ⟨n₁, hcell₁, hn₁, h, hfree₁⟩
  have hmax : (setFrame fr (k * 0x1000)).maxFrameTables_ = fr.maxFrameTables_ := rfl
  have hnfree' : frameBit (setFrame fr (k * 0x1000)) n = false := by
    rw [frameBit_setFrame, hnfree]; simp [hnk]
  obtain ⟨j, hjn, hjfree, hjlow⟩ := exists_lowest_free (setFrame fr (k * 0x1000)) n hnfree'
  have hjc : j / 32 ≤ n / 32 := Nat.div_le_div_right hjn
  have hj : j < 2 ^ 20 := by omega
  rw [frameBit_setFrame] at hjfree
  have hjk : j ≠ k := by
    intro h
    simp [h] at hjfree
  have hjfree0 : frameBit fr j = false := by
    cases hb : frameBit fr j
    · rfl
    · simp [hb] at hjfree
  have e₁ := (allocated_entry pd₁ u₁ w₁ k hpd₁ hk).2.2.2
  have e₂ := (allocated_entry pd₂ u₂ w₂ j hpd₂ hj).2.2.2
  simp only at e₁ e₂
  refine ⟨_, _, _, _,
    allocateFrame_of_lowest fr pd₁ u₁ w₁ k hpd₁ (by omega) hk hkfree hklow,
    allocateFrame_of_lowest (setFrame fr (k * 0x1000)) pd₂ u₂ w₂ j hpd₂
      (by rw [hmax]; omega) hj (by rw [frameBit_setFrame, hjfree0]; simp [hjk]) hjlow,
    ?_, ?_, ?_⟩
  · rw [e₁, e₂]; exact fun h => hjk h.symm
  · rw [e₁, checkFrame_mul]; exact hkfree
  · rw [e₂, checkFrame_mul]; exact hjfree0

theorem allocateFrame_twice_distinct_example :
    (PageDescriptor.getFrameAddress ⟨0⟩ = 0 ∧ PageDescriptor.getFrameAddress ⟨6⟩ = 0 ∧
        40 / 32 < indexFromBit cap64.maxFrameTables_ ∧ 40 < 2 ^ 20 ∧
        checkFrame cap64 (40 * 0x1000) = false ∧
        33 / 32 < indexFromBit cap64.maxFrameTables_ ∧ 33 < 2 ^ 20 ∧
        checkFrame cap64 (33 * 0x1000) = false ∧ 40 ≠ 33) ∧
      ∃ fr₁ pd₁' fr₂ pd₂', allocateFrame cap64 ⟨0⟩ true false = some (fr₁, pd₁') ∧
        allocateFrame fr₁ ⟨6⟩ false true = some (fr₂, pd₂') ∧
        pd₁'.getFrameAddress ≠ pd₂'.getFrameAddress ∧
        checkFrame cap64 (pd₁'.getFrameAddress * 0x1000) = false ∧
        checkFrame cap64 (pd₂'.getFrameAddress * 0x1000) = false :=
  ⟨⟨by decide, by decide, by decide, by decide, by decide, by decide, by decide, by decide,
      by decide⟩,
    allocateFrame_twice_distinct cap64 ⟨0⟩ ⟨6⟩ true false false true 40 33 (by decide)
      (by decide) (by decide) (by decide) (by decide) (by decide) (by decide) (by decide)
      (by decide)⟩

/-- C3 (the code with the free frames in a trailing partial cell): inside the
scanned cells two successive `allocateFrame` calls bind two distinct frames
that were free.  With a capacity of 34 frames, frames 0..31 used and frames 32
and 33 free, the scan visits `34 / 32 = 1` full cell, `firstFreeFrame` ends
without a `return`, and already the first `allocateFrame` goes on with an
undefined `index`: nothing keeps it from a frame that is in use. -/
theorem allocateFrame_partial_cell_twice :
    (∀ (fr : Frames) (pd₁ pd₂ : PageDescriptor) (u₁ w₁ u₂ w₂ : Bool) (n₁ n₂ : Nat),
        pd₁.getFrameAddress = 0 → pd₂.getFrameAddress = 0 →
        n₁ / 32 < indexFromBit fr.maxFrameTables_ → n₁ < 2 ^ 20 →
        checkFrame fr (n₁ * 0x1000) = false →
        n₂ / 32 < indexFromBit fr.maxFrameTables_ → n₂ < 2 ^ 20 →
        checkFrame fr (n₂ * 0x1000) = false → n₁ ≠ n₂ →
        ∃ fr₁ pd₁' fr₂ pd₂', allocateFrame fr pd₁ u₁ w₁ = some (fr₁, pd₁') ∧
          allocateFrame fr₁ pd₂ u₂ w₂ = some (fr₂, pd₂') ∧
          pd₁'.getFrameAddress ≠ pd₂'.getFrameAddress ∧
          checkFrame fr (pd₁'.getFrameAddress * 0x1000) = false ∧
          checkFrame fr (pd₂'.getFrameAddress * 0x1000) = false) ∧
      PageDescriptor.getFrameAddress ⟨0⟩ = 0 ∧
      32 < cap34.maxFrameTables_ ∧ 33 < cap34.maxFrameTables_ ∧
      checkFrame cap34 (32 * 0x1000) = false ∧ checkFrame cap34 (33 * 0x1000) = false ∧
      (∀ i, i < 32 → checkFrame cap34 (i * 0x1000) = true) ∧
      firstFreeFrame cap34 = some none ∧
      (allocateFrame cap34 ⟨0⟩ true false).isSome = false :=
  ⟨allocateFrame_twice_distinct, by decide, by decide, by decide, by decide, by decide,
    by decide, by decide, by decide⟩

/-- Inside the cells the scan visits: for a bitmap with a free frame in a
scanned cell (index below `2 ^ 20`), an entry whose frame field is 0 and any
`userMode`, `writable`, `allocateFrame`
succeeds and afterwards the entry has present (bit 0) set, userMode (bit 2) and
writable (bit 1) equal to the arguments, and `getFrameAddress` equal to the
index `firstFreeFrame` returned, which is now marked used in the bitmap. -/
theorem allocateFrame_binds_entry (fr : Frames) (pd : PageDescriptor)
    (userMode writable : Bool) (n : Nat) (hpd : pd.getFrameAddress = 0)
    (hcell : n / 32 < indexFromBit fr.maxFrameTables_) (hn : n < 2 ^ 20)
    (hfree : checkFrame fr (n * 0x1000) = false) :
    ∃ k fr' pd', firstFreeFrame fr = some (some k) ∧
      allocateFrame fr pd userMode writable = some (fr', pd') ∧
      pd'.getFlagValue 0 = true ∧ pd'.getFlagValue 2 = userMode ∧
      pd'.getFlagValue 1 = writable ∧ pd'.getFrameAddress = k ∧
      checkFrame fr' (k * 0x1000) = true := by
  rw [checkFrame_mul] at hfree
  obtain ⟨k, hkn, hkfree, hklow⟩ := exists_lowest_free fr n hfree
  have h1 : k / 32 ≤ n / 32 := Nat.div_le_div_right hkn
  have hk : k < 2 ^ 20 := by omega
  obtain ⟨a, b, c, d⟩ := allocated_entry pd userMode writable k hpd hk
  exact ⟨k, _, _, firstFreeFrame_of_lowest fr k (by omega) (by omega) hkfree hklow,
    allocateFrame_of_lowest fr pd userMode writable k hpd (by omega) hk hkfree hklow,
    a, b, c, d, by rw [checkFrame_setFrame]; simp⟩

theorem allocateFrame_binds_entry_example :
    (PageDescriptor.getFrameAddress ⟨2⟩ = 0 ∧ 63 / 32 < indexFromBit cap64.maxFrameTables_ ∧
        63 < 2 ^ 20 ∧ checkFrame cap64 (63 * 0x1000) = false) ∧
      ∃ k fr' pd', firstFreeFrame cap64 = some (some k) ∧
        allocateFrame cap64 ⟨2⟩ true false = some (fr', pd') ∧
        pd'.getFlagValue 0 = true ∧ pd'.getFlagValue 2 = true ∧
        pd'.getFlagValue 1 = false ∧ pd'.getFrameAddress = k ∧
        checkFrame fr' (k * 0x1000) = true :=
  ⟨⟨by decide, by decide, by decide, by decide⟩,
    allocateFrame_binds_entry cap64 ⟨2⟩ true false 63 (by decide) (by decide) (by decide)
      (by decide)⟩

/-- C4 (the code with the free frames in a trailing partial cell): inside the
scanned cells `allocateFrame` sets present, userMode, writable and the frame
field to the index `firstFreeFrame` returned.  With a capacity of 40 frames,
frames 0..31 used and frames 32..39 free, `firstFreeFrame` ends without a
`return`, so there is no returned index for the entry to be bound to and
`allocateFrame` goes on with an undefined `index`. -/
theorem allocateFrame_partial_cell_binds :
    (∀ (fr : Frames) (pd : PageDescriptor) (userMode writable : Bool) (n : Nat),
        pd.getFrameAddress = 0 → n / 32 < indexFromBit fr.maxFrameTables_ → n < 2 ^ 20 →
        checkFrame fr (n * 0x1000) = false →
        ∃ k fr' pd', firstFreeFrame fr = some (some k) ∧
          allocateFrame fr pd userMode writable = some (fr', pd') ∧
          pd'.getFlagValue 0 = true ∧ pd'.getFlagValue 2 = userMode ∧
          pd'.getFlagValue 1 = writable ∧ pd'.getFrameAddress = k ∧
          checkFrame fr' (k * 0x1000) = true) ∧
      PageDescriptor.getFrameAddress ⟨0⟩ = 0 ∧ 35 < cap40.maxFrameTables_ ∧
      checkFrame cap40 (35 * 0x1000) = false ∧
      firstFreeFrame cap40 = some none ∧
      (allocateFrame cap40 ⟨0⟩ false true).isSome = false :=
  ⟨allocateFrame_binds_entry, by decide, by decide, by decide, by decide, by decide⟩

/-- C5: `allocateFrame` on an entry whose frame field is non-zero is a no-op:
it returns with the bitmap and the entry word unchanged. -/
theorem allocateFrame_mapped_noop (fr : Frames) (pd : PageDescriptor)
    (userMode writable : Bool) (hpd : pd.getFrameAddress ≠ 0) :
    allocateFrame fr pd userMode writable = some (fr, pd) := by
  unfold allocateFrame
  rw [if_pos hpd]

theorem allocateFrame_mapped_noop_witness :
    PageDescriptor.getFrameAddress ⟨0x7005⟩ ≠ 0 ∧
      allocateFrame free64 ⟨0x7005⟩ false true = some (free64, ⟨0x7005⟩) :=
  ⟨by decide, allocateFrame_mapped_noop free64 ⟨0x7005⟩ false true (by decide)⟩

/-- C6 as stated fails: on an all-free bitmap the first `allocateFrame` binds
frame 0, the entry's frame field stays 0 (entry word 5), and the second
`allocateFrame` on the same entry allocates frame 1 as well (entry word
`0x1005`, frame 1 marked used). -/
theorem allocateFrame_twice_frame_zero_counterexample :
    PageDescriptor.getFrameAddress ⟨0⟩ = 0 ∧ checkFrame free64 (0 * 0x1000) = false ∧
      (allocateFrame free64 ⟨0⟩ true false).map
          (fun r => (r.2.pageDescriptorWord_, checkFrame r.1 (1 * 0x1000))) = some (5, false) ∧
      ((allocateFrame free64 ⟨0⟩ true false).bind
          (fun r => allocateFrame r.1 r.2 true false)).map
          (fun r => (r.2.pageDescriptorWord_, checkFrame r.1 (1 * 0x1000)))
        = some (0x1005, true) := by
  decide

/-- C6 (amended): for a bitmap in which frame 0 is used and some frame (in a
scanned cell, below `2 ^ 20`) is free, and an entry whose frame field is 0,
`allocateFrame` succeeds and a second `allocateFrame` on the resulting entry,
with any flags, leaves both the bitmap and the entry unchanged. -/
theorem allocateFrame_idempotent (fr : Frames) (pd : PageDescriptor)
    (userMode writable : Bool) (n : Nat) (hpd : pd.getFrameAddress = 0)
    (hcell : n / 32 < indexFromBit fr.maxFrameTables_) (hn : n < 2 ^ 20)
    (hfree : checkFrame fr (n * 0x1000) = false)
    (hzero : checkFrame fr (0 * 0x1000) = true) :
    ∃ fr' pd', allocateFrame fr pd userMode writable = some (fr', pd') ∧
      ∀ u w, allocateFrame fr' pd' u w = some (fr', pd') := by
  rw [checkFrame_mul] at hfree hzero
  obtain ⟨k, hkn, hkfree, hklow⟩ := exists_lowest_free fr n hfree
  have h1 : k / 32 ≤ n / 32 := Nat.div_le_div_right hkn
  have hk : k < 2 ^ 20 := by omega
  have hk0 : k ≠ 0 := by
    intro h
    rw [h, hzero] at hkfree
    exact Bool.noConfusion hkfree
  have hfa := (allocated_entry pd userMode writable k hpd hk).2.2.2
  simp only at hfa
  refine ⟨_, _, allocateFrame_of_lowest fr pd userMode writable k hpd (by omega) hk hkfree
    hklow, ?_⟩
  intro u w
  unfold allocateFrame
  rw [if_pos (by rw [hfa]; exact hk0)]

theorem allocateFrame_idempotent_witness :
    (PageDescriptor.getFrameAddress ⟨0⟩ = 0 ∧ 1 / 32 < indexFromBit used0.maxFrameTables_ ∧
        1 < 2 ^ 20 ∧ checkFrame used0 (1 * 0x1000) = false ∧
        checkFrame used0 (0 * 0x1000) = true) ∧
      ∃ fr' pd', allocateFrame used0 ⟨0⟩ true false = some (fr', pd') ∧
        ∀ u w, allocateFrame fr' pd' u w = some (fr', pd') :=
  ⟨⟨by decide, by decide, by decide, by decide, by decide⟩,
    allocateFrame_idempotent used0 ⟨0⟩ true false 1 (by decide) (by decide) (by decide)
      (by decide) (by decide)⟩

/-! ## Exhaustion -/

/-- With every scanned cell full and fewer than 65536 cells, the outer loop
runs to its end and control leaves the function without a `return`. -/
theorem scanCells_exhausted (fr : Frames)
    (hcap : indexFromBit fr.maxFrameTables_ < 65536)
    (hfull : ∀ m, m < 32 * indexFromBit fr.maxFrameTables_ → frameBit fr m = true) :
    ∀ (d i fuel : Nat), i + d = indexFromBit fr.maxFrameTables_ → d < fuel →
      scanCells fr fuel i = some none := by
  intro d
  induction d with
  | zero =>
    intro i fuel hi hfuel
    obtain ⟨f, rfl⟩ : ∃ f, fuel = f + 1 := ⟨fuel - 1, by omega⟩
    unfold scanCells
    rw [if_neg (by omega)]
  | succ d ih =>
    intro i fuel hi hfuel
    obtain ⟨f, rfl⟩ : ∃ f, fuel = f + 1 := ⟨fuel - 1, by omega⟩
    unfold scanCells
    rw [if_pos (by omega)]
    have hall : ∀ m, 0 ≤ m → m < 0 + 32 → (fr.frameTable_ i).testBit m = true := by
      intro m _ hm
      have := hfull (i * 32 + m) (by omega)
      rw [frameBit_eq_testBit] at this
      have e1 : (i * 32 + m) / 32 = i := by omega
      have e2 : (i * 32 + m) % 32 = m := by omega
      rw [e1, e2] at this
      exact this
    have hnext : (i + 1) % 65536 = i + 1 := Nat.mod_eq_of_lt (by omega)
    have hrec := ih (i + 1) f (by omega) (by omega)
    by_cases hne : fr.frameTable_ i ≠ 0xffffffff
    · rw [if_pos hne, scanBits_all_set _ _ 32 0 hall, hnext]
      exact hrec
    · rw [if_neg hne, hnext]
      exact hrec

/-- Every value the outer loop returns is a frame number below `65536 * 32`. -/
theorem scanCells_some_lt (fr : Frames) :
    ∀ (fuel i k : Nat), i < 65536 → scanCells fr fuel i = some (some k) → k < 65536 * 32 := by
  intro fuel
  induction fuel with
  | zero => intro i k _ h; simp [scanCells] at h
  | succ f ih =>
    intro i k hi h
    unfold scanCells at h
    have hnext : (i + 1) % 65536 < 65536 := Nat.mod_lt _ (by norm_num)
    by_cases hb : i < indexFromBit fr.maxFrameTables_
    · rw [if_pos hb] at h
      by_cases hne : fr.frameTable_ i ≠ 0xffffffff
      · rw [if_pos hne] at h
        cases hs : scanBits (fr.frameTable_ i) i 32 0 with
        | none =>
          rw [hs] at h
          exact ih _ k hnext h
        | some r =>
          rw [hs] at h
          have hr : r = k := Option.some.inj (Option.some.inj h)
          obtain ⟨b, _, hb2, hb3, _, _⟩ := scanBits_some _ _ _ _ _ hs
          omega
      · rw [if_neg hne] at h
        exact ih _ k hnext h
    · rw [if_neg hb] at h
      exact absurd h (by simp)

/-- C7 (the code at exhaustion): on a bitmap with every frame below the capacity
used (capacity below `2 ^ 21` frames), `firstFreeFrame` leaves its loop and ends
without a `return`, so it does not return the value `(0x1 << 31) - 1` that
`allocateFrame` tests for; no call of `firstFreeFrame` ever returns that value;
and `allocateFrame` on an entry whose frame field is 0 continues with an
undefined `index` instead of returning with bitmap and entry unchanged. -/
theorem firstFreeFrame_exhausted_no_return (fr : Frames) (pd : PageDescriptor)
    (userMode writable : Bool) (hcap : fr.maxFrameTables_ < 2 ^ 21)
    (hfull : ∀ m, m < fr.maxFrameTables_ → frameBit fr m = true)
    (hpd : pd.getFrameAddress = 0) :
    firstFreeFrame fr = some none ∧
      (∀ fr₀ : Frames, firstFreeFrame fr₀ ≠ some (some ((0x1 <<< 31) - 1))) ∧
      allocateFrame fr pd userMode writable = none ∧
      allocateFrame fr pd userMode writable ≠ some (fr, pd) := by
  have hb : indexFromBit fr.maxFrameTables_ < 65536 := by unfold indexFromBit; omega
  have hff : firstFreeFrame fr = some none :=
    scanCells_exhausted fr hb
      (fun m hm => hfull m (by unfold indexFromBit at hm; omega))
      (indexFromBit fr.maxFrameTables_) 0 scanFuel (by omega) (by unfold scanFuel; omega)
  have hal : allocateFrame fr pd userMode writable = none := by
    unfold allocateFrame
    rw [if_neg (by simp [hpd]), hff]
  refine ⟨hff, ?_, hal, by rw [hal]; simp⟩
  intro fr₀ h
  have := scanCells_some_lt fr₀ scanFuel 0 _ (by norm_num) h
  have e : (0x1 <<< 31) - 1 = 2147483647 := by decide
  omega

theorem firstFreeFrame_exhausted_no_return_witness :
    (full64.maxFrameTables_ < 2 ^ 21 ∧ (∀ m, m < full64.maxFrameTables_ → frameBit full64 m = true) ∧
        PageDescriptor.getFrameAddress ⟨0⟩ = 0) ∧
      (firstFreeFrame full64 = some none ∧
        (∀ fr₀ : Frames, firstFreeFrame fr₀ ≠ some (some ((0x1 <<< 31) - 1))) ∧
        allocateFrame full64 ⟨0⟩ true false = none ∧
        allocateFrame full64 ⟨0⟩ true false ≠ some (full64, ⟨0⟩)) :=
  ⟨⟨by decide, by decide, by decide⟩,
    firstFreeFrame_exhausted_no_return full64 ⟨0⟩ true false (by decide) (by decide)
      (by decide)⟩

/-! ## freeFrame and the frame field -/

/-- C8 (the code at a bound entry): `freeFrame` never changes the entry
(`setFrameAddress(0x0)` ORs nothing in), and it passes the frame number, not
the byte address, to `clearFrame`: with frames 0 and 1 used and an entry bound
to frame 1 (word `0x1005`), afterwards frame 1 is still used, frame 0 has been
cleared, and `getFrameAddress` is still 1. -/
theorem freeFrame_misses_frame :
    (∀ (fr : Frames) (pd : PageDescriptor), (freeFrame fr pd).2 = pd) ∧
      PageDescriptor.getFrameAddress ⟨0x1005⟩ = 1 ∧
      checkFrame used01 (1 * 0x1000) = true ∧ checkFrame used01 (0 * 0x1000) = true ∧
      checkFrame (freeFrame used01 ⟨0x1005⟩).1 (1 * 0x1000) = true ∧
      checkFrame (freeFrame used01 ⟨0x1005⟩).1 (0 * 0x1000) = false ∧
      (freeFrame used01 ⟨0x1005⟩).2.getFrameAddress = 1 := by
  refine ⟨?_, by decide, by decide, by decide, by decide, by decide, by decide⟩
  intro fr pd
  unfold freeFrame
  by_cases h : pd.getFrameAddress = 0
  · rw [if_pos h]
  · rw [if_neg h]
    simp [PageDescriptor.setFrameAddress]

/-- C9 (the code on free-then-allocate): with only frame 0 used,
`allocateFrame` binds frame 1 to a fresh entry; `freeFrame` on that entry
leaves frame 1 marked used and clears frame 0 instead; a following
`allocateFrame` on an entry whose frame field is 0 binds frame 0, not frame
1. -/
theorem free_then_allocate_other_frame :
    (allocateFrame used0 ⟨0⟩ true false).map (fun r => r.2.getFrameAddress) = some 1 ∧
      (allocateFrame used0 ⟨0⟩ true false).map
          (fun r => (checkFrame (freeFrame r.1 r.2).1 (1 * 0x1000),
            checkFrame (freeFrame r.1 r.2).1 (0 * 0x1000),
            (freeFrame r.1 r.2).2.getFrameAddress)) = some (true, false, 1) ∧
      ((allocateFrame used0 ⟨0⟩ true false).bind
          (fun r => allocateFrame (freeFrame r.1 r.2).1 ⟨0⟩ true false)).map
          (fun r => r.2.getFrameAddress) = some 0 := by
  decide

/-- C10 (the code on re-assignment): `setFrameAddress f` ORs the low 20 bits of
`f` into the frame field, so `getFrameAddress` afterwards is the old field OR
`f`; on an entry holding frame 1, `setFrameAddress 2` gives frame 3. -/
theorem setFrameAddress_ors_frame :
    (∀ (pd : PageDescriptor) (f : Nat),
        (pd.setFrameAddress f).getFrameAddress = pd.getFrameAddress ||| (f % 2 ^ 20)) ∧
      PageDescriptor.getFrameAddress ⟨0x1000⟩ = 1 ∧
      (PageDescriptor.setFrameAddress ⟨0x1000⟩ 2).getFrameAddress = 3 :=
  ⟨getFrameAddress_setFrameAddress, by decide, by decide⟩

/-! ## The fuel of `firstFreeFrame` -/

theorem scanCells_mono (fr : Frames) :
    ∀ (fuel i : Nat) (r : Option Nat), scanCells fr fuel i = some r →
      scanCells fr (fuel + 1) i = some r := by
  intro fuel
  induction fuel with
  | zero => intro i r h; simp [scanCells] at h
  | succ f ih =>
    intro i r h
    unfold scanCells at h
    unfold scanCells
    by_cases hb : i < indexFromBit fr.maxFrameTables_
    · rw [if_pos hb] at h ⊢
      by_cases hne : fr.frameTable_ i ≠ 0xffffffff
      · rw [if_pos hne] at h ⊢
        cases hs : scanBits (fr.frameTable_ i) i 32 0 with
        | none =>
          rw [hs] at h
          exact ih _ r h
        | some k =>
          rw [hs] at h
          exact h
      · rw [if_neg hne] at h ⊢
        exact ih _ r h
    · rw [if_neg hb] at h ⊢
      exact h

theorem scanCells_mono_le (fr : Frames) (fuel i : Nat) (r : Option Nat)
    (h : scanCells fr fuel i = some r) :
    ∀ extra, scanCells fr (fuel + extra) i = some r := by
  intro extra
  induction extra with
  | zero => exact h
  | succ e ih => exact scanCells_mono fr (fuel + e) i r ih

theorem scanCells_none_step (fr : Frames) (fuel i : Nat)
    (h : scanCells fr (fuel + 1) i = none) :
    continues fr i ∧ scanCells fr fuel ((i + 1) % 65536) = none := by
  unfold scanCells at h
  by_cases hb : i < indexFromBit fr.maxFrameTables_
  · rw [if_pos hb] at h
    by_cases hne : fr.frameTable_ i ≠ 0xffffffff
    · rw [if_pos hne] at h
      cases hs : scanBits (fr.frameTable_ i) i 32 0 with
      | none =>
        rw [hs] at h
        exact ⟨⟨hb, Or.inr hs⟩, h⟩
      | some k =>
        rw [hs] at h
        exact absurd h (by simp)
    · rw [if_neg hne] at h
      exact ⟨⟨hb, Or.inl (not_not.mp hne)⟩, h⟩
  · rw [if_neg hb] at h
    exact absurd h (by simp)

theorem scanCells_none_prefix (fr : Frames) :
    ∀ (i fuel : Nat), i < 65536 → scanCells fr (fuel + i + 1) 0 = none →
      (∀ j, j ≤ i → continues fr j) ∧ scanCells fr fuel ((i + 1) % 65536) = none := by
  intro i
  induction i with
  | zero =>
    intro fuel _ h
    obtain ⟨hc, hn⟩ := scanCells_none_step fr fuel 0 h
    exact ⟨fun j hj => by have : j = 0 := by omega
                          subst this; exact hc, hn⟩
  | succ i ih =>
    intro fuel hi h
    have h' : scanCells fr (fuel + 1 + i + 1) 0 = none := by
      have e : fuel + 1 + i + 1 = fuel + (i + 1) + 1 := by omega
      rw [e]; exact h
    obtain ⟨hpre, hn⟩ := ih (fuel + 1) (by omega) h'
    rw [Nat.mod_eq_of_lt (by omega)] at hn
    obtain ⟨hc, hn'⟩ := scanCells_none_step fr fuel (i + 1) hn
    refine ⟨?_, hn'⟩
    intro j hj
    by_cases hji : j = i + 1
    · subst hji; exact hc
    · exact hpre j (by omega)

theorem scanCells_cycle (fr : Frames) (hall : ∀ j, j < 65536 → continues fr j) :
    ∀ (fuel i : Nat), i < 65536 → scanCells fr fuel i = none := by
  intro fuel
  induction fuel with
  | zero => intro i _; rfl
  | succ f ih =>
    intro i hi
    obtain ⟨hb, hc⟩ := hall i hi
    have hnext : (i + 1) % 65536 < 65536 := Nat.mod_lt _ (by norm_num)
    unfold scanCells
    rw [if_pos hb]
    by_cases hne : fr.frameTable_ i ≠ 0xffffffff
    · rw [if_pos hne]
      rcases hc with hc | hc
      · exact absurd hc hne
      · rw [hc]; exact ih _ hnext
    · rw [if_neg hne]; exact ih _ hnext

/-- The fuel `scanFuel` of `firstFreeFrame` is enough: more fuel never changes
the result, so `none` stands for a loop that does not end. -/
theorem scanCells_fuel_stable (fr : Frames) (extra : Nat) :
    scanCells fr (scanFuel + extra) 0 = firstFreeFrame fr := by
  unfold firstFreeFrame
  cases h : scanCells fr scanFuel 0 with
  | some r => exact scanCells_mono_le fr scanFuel 0 r h extra
  | none =>
    have h' : scanCells fr (1 + 65535 + 1) 0 = none := h
    obtain ⟨hpre, _⟩ := scanCells_none_prefix fr 65535 1 (by norm_num) h'
    exact scanCells_cycle fr (fun j hj => hpre j (by omega)) _ 0 (by norm_num)

/-! ## Flags, entry encoding and bitmap addressing -/

/-- C11: on a 32-bit entry word and for a bit offset `o` below 32,
`setFlagValue b o` writes `b` to bit `o` and touches no other bit: afterwards
`getFlagValue o = b`, `getFlagValue o'` is unchanged for every `o' ≠ o`, and
`getFrameAddress` is unchanged when `o < 12`. -/
theorem setFlagValue_writes_one_bit (pd : PageDescriptor) (b : Bool) (o : Nat)
    (hw : pd.pageDescriptorWord_ < 2 ^ 32) (ho : o < 32) :
    (pd.setFlagValue b o).getFlagValue o = b ∧
      (∀ o', o' ≠ o → (pd.setFlagValue b o).getFlagValue o' = pd.getFlagValue o') ∧
      (o < 12 → (pd.setFlagValue b o).getFrameAddress = pd.getFrameAddress) := by
  refine ⟨?_, ?_, ?_⟩
  · rw [getFlagValue_setFlagValue pd b o o hw ho, if_pos rfl]
  · intro o' hne
    rw [getFlagValue_setFlagValue pd b o o' hw ho, if_neg (fun h => hne h.symm)]
  · intro h12
    exact getFrameAddress_setFlagValue pd b o hw h12

theorem setFlagValue_writes_one_bit_witness :
    ((⟨0x1005⟩ : PageDescriptor).pageDescriptorWord_ < 2 ^ 32 ∧ 2 < 32) ∧
      ((PageDescriptor.setFlagValue ⟨0x1005⟩ false 2).getFlagValue 2 = false ∧
        (∀ o', o' ≠ 2 → (PageDescriptor.setFlagValue ⟨0x1005⟩ false 2).getFlagValue o'
          = PageDescriptor.getFlagValue ⟨0x1005⟩ o') ∧
        (2 < 12 → (PageDescriptor.setFlagValue ⟨0x1005⟩ false 2).getFrameAddress
          = PageDescriptor.getFrameAddress ⟨0x1005⟩)) :=
  ⟨⟨by decide, by decide⟩,
    setFlagValue_writes_one_bit ⟨0x1005⟩ false 2 (by decide) (by decide)⟩

theorem testBit_setFrameAddress_zero (f i : Nat) (hf : f < 2 ^ 20) :
    (PageDescriptor.setFrameAddress ⟨0⟩ f).pageDescriptorWord_.testBit i
      = (f <<< 12).testBit i := by
  have hlt : f <<< 12 < 2 ^ 32 := by
    rw [Nat.shiftLeft_eq]
    omega
  simp only [PageDescriptor.setFrameAddress, Nat.zero_or, Nat.mod_eq_of_lt hlt]

theorem setFrameAddress_zero_lt (f : Nat) :
    (PageDescriptor.setFrameAddress ⟨0⟩ f).pageDescriptorWord_ < 2 ^ 32 := by
  simp only [PageDescriptor.setFrameAddress, Nat.zero_or]
  exact Nat.mod_lt _ (by norm_num)

theorem testBit_toNat_shiftLeft (b : Bool) (k i : Nat) :
    (b.toNat <<< k).testBit i = (decide (i = k) && b) := by
  rw [Nat.testBit_shiftLeft, Nat.testBit_bool_to_nat]
  by_cases h : i = k
  · subst h; simp
  · by_cases h2 : i ≥ k
    · have : ¬ (i - k = 0) := by omega
      simp [h, this]
    · simp [h, h2]

/-- C12: applied to an entry word that is 0, the constructor with a frame
number `f < 2 ^ 20` and the five flags produces the word
`(f << 12) | (written << 6) | (accessed << 5) | (userMode << 2) | (writable << 1) | present`. -/
theorem construct_word (init : PageDescriptor) (f : Nat)
    (written accessed userMode writable present : Bool)
    (h0 : init.pageDescriptorWord_ = 0) (hf : f < 2 ^ 20) :
    (init.construct f written accessed userMode writable present).pageDescriptorWord_
      = (f <<< 12) ||| (written.toNat <<< 6) ||| (accessed.toNat <<< 5)
          ||| (userMode.toNat <<< 2) ||| (writable.toNat <<< 1) ||| present.toNat := by
  obtain ⟨w⟩ := init
  simp only at h0
  subst h0
  have h1 := setFrameAddress_zero_lt f
  have h2 := setFlagValue_lt _ written 6 h1 (by norm_num)
  have h3 := setFlagValue_lt _ accessed 5 h2 (by norm_num)
  have h4 := setFlagValue_lt _ userMode 2 h3 (by norm_num)
  have h5 := setFlagValue_lt _ writable 1 h4 (by norm_num)
  apply Nat.eq_of_testBit_eq
  intro i
  unfold PageDescriptor.construct
  rw [testBit_setFlagValue _ present 0 i h5 (by norm_num),
    testBit_setFlagValue _ writable 1 i h4 (by norm_num),
    testBit_setFlagValue _ userMode 2 i h3 (by norm_num),
    testBit_setFlagValue _ accessed 5 i h2 (by norm_num),
    testBit_setFlagValue _ written 6 i h1 (by norm_num),
    testBit_setFrameAddress_zero f i hf]
  have hp : present.toNat = present.toNat <<< 0 := by simp
  rw [hp]
  simp only [Nat.testBit_or, testBit_toNat_shiftLeft]
  rw [Nat.testBit_shiftLeft]
  by_cases hi : i < 12
  · have hge : ¬ i ≥ 12 := by omega
    interval_cases i <;> simp
  · have e0 : ¬ (0 = i) := by omega
    have e1 : ¬ (1 = i) := by omega
    have e2 : ¬ (2 = i) := by omega
    have e5 : ¬ (5 = i) := by omega
    have e6 : ¬ (6 = i) := by omega
    have e0' : ¬ (i = 0) := by omega
    have e1' : ¬ (i = 1) := by omega
    have e2' : ¬ (i = 2) := by omega
    have e5' : ¬ (i = 5) := by omega
    have e6' : ¬ (i = 6) := by omega
    simp [e0, e1, e2, e5, e6, e0', e1', e2', e5', e6']

theorem construct_word_witness :
    ((⟨0⟩ : PageDescriptor).pageDescriptorWord_ = 0 ∧ 0x12345 < 2 ^ 20) ∧
      (PageDescriptor.construct ⟨0⟩ 0x12345 true false true false true).pageDescriptorWord_
        = (0x12345 <<< 12) ||| (true.toNat <<< 6) ||| (false.toNat <<< 5)
            ||| (true.toNat <<< 2) ||| (false.toNat <<< 1) ||| true.toNat :=
  ⟨⟨by decide, by decide⟩,
    construct_word ⟨0⟩ 0x12345 true false true false true (by decide) (by decide)⟩

/-- C13: the bitmap operations address frame number `address / 4096` (cell
`(a / 4096) / 32`, bit `(a / 4096) % 32`): after `setFrame a`, `checkFrame a'`
is true when `a' / 4096 = a / 4096` and otherwise keeps its value; after
`clearFrame a`, `checkFrame a'` is false when `a' / 4096 = a / 4096` and
otherwise keeps its value. -/
theorem setFrame_clearFrame_address (fr : Frames) (a a' : Nat) :
    getFrameIndex a = (a / 4096) / 32 ∧ getFrameOffset a = (a / 4096) % 32 ∧
      checkFrame (setFrame fr a) a'
        = (if a' / 4096 = a / 4096 then true else checkFrame fr a') ∧
      checkFrame (clearFrame fr a) a'
        = (if a' / 4096 = a / 4096 then false else checkFrame fr a') := by
  have hoff : (a' / 0x1000) % 32 < 32 := Nat.mod_lt _ (by norm_num)
  refine ⟨by unfold getFrameIndex; omega, rfl, ?_, ?_⟩
  · rw [checkFrame_eq_testBit, checkFrame_eq_testBit]
    simp only [setFrame, getFrameIndex, getFrameOffset]
    by_cases hc : a' / (0x1000 * 32) = a / (0x1000 * 32)
    · rw [if_pos hc, testBit_lor_one_shiftLeft]
      by_cases ho : a / 0x1000 % 32 = a' / 0x1000 % 32
      · have : a' / 4096 = a / 4096 := by omega
        simp [ho, this]
      · have : ¬ a' / 4096 = a / 4096 := by omega
        simp [ho, this]
    · rw [if_neg hc]
      have : ¬ a' / 4096 = a / 4096 := by omega
      simp [this]
  · rw [checkFrame_eq_testBit, checkFrame_eq_testBit]
    simp only [clearFrame, getFrameIndex, getFrameOffset]
    by_cases hc : a' / (0x1000 * 32) = a / (0x1000 * 32)
    · rw [if_pos hc, testBit_land_not_one_shiftLeft]
      by_cases ho : a / 0x1000 % 32 = a' / 0x1000 % 32
      · have : a' / 4096 = a / 4096 := by omega
        simp [ho, this, hoff]
      · have : ¬ a' / 4096 = a / 4096 := by omega
        simp [ho, this, hoff]
    · rw [if_neg hc]
      have : ¬ a' / 4096 = a / 4096 := by omega
      simp [this]

/-! ## getPage -/

theorem tableIndex_lt_iff (address : Nat) :
    PagingManager.tableIndex address < directoryLength ↔ address < 2 ^ 20 := by
  unfold PagingManager.tableIndex directoryLength
  constructor
  · intro h
    have h1 : address ||| 0x1000 < 2 ^ 20 := by omega
    apply Nat.lt_pow_two_of_testBit
    intro i hi
    have h2 : (address ||| 0x1000).testBit i = false :=
      Nat.testBit_lt_two_pow
        (Nat.lt_of_lt_of_le h1 (Nat.pow_le_pow_right (by norm_num) hi))
    rw [Nat.testBit_or] at h2
    cases hb : address.testBit i
    · rfl
    · rw [hb] at h2
      simp at h2
  · intro h
    have h1 : address ||| 0x1000 < 2 ^ 20 := Nat.or_lt_two_pow h (by norm_num)
    omega

theorem pageIndex_lt (address : Nat) : PagingManager.pageIndex address < tableLength := by
  unfold PagingManager.pageIndex tableLength
  exact Nat.mod_lt _ (by norm_num)

/-- With the directory index out of range `getPage` is undefined. -/
theorem getPage_out_of_range (kMalloc : KMalloc) (pm : PlacementMemoryManager)
    (address : Nat) (make : Bool) (dir : PageDirectory)
    (h : ¬ PagingManager.tableIndex address < directoryLength) :
    PagingManager.getPage kMalloc pm address make dir = none := by
  unfold PagingManager.getPage index?
  rw [if_neg h]

/-- With the directory index in range and a table in the slot, `getPage`
returns the entry of that table and changes nothing. -/
theorem getPage_present (kMalloc : KMalloc) (pm : PlacementMemoryManager)
    (address : Nat) (make : Bool) (dir : PageDirectory)
    (h : PagingManager.tableIndex address < directoryLength)
    (ht : dir.pageTablesVirtual_ (PagingManager.tableIndex address) ≠ 0) :
    PagingManager.getPage kMalloc pm address make dir
      = some (some (dir.pageTablesVirtual_ (PagingManager.tableIndex address),
          PagingManager.pageIndex address), dir, pm) := by
  unfold PagingManager.getPage index?
  rw [if_pos h, if_pos (pageIndex_lt address)]
  simp only [ht, ne_eq, not_false_eq_true, if_true]

/-- With the directory index in range and no table in the slot,
`getPage(address, 1, dir)` takes a table from `kMalloc` and writes both arrays
at the slot. -/
theorem getPage_create (kMalloc : KMalloc) (pm : PlacementMemoryManager)
    (address : Nat) (dir : PageDirectory)
    (h : PagingManager.tableIndex address < directoryLength)
    (ht : dir.pageTablesVirtual_ (PagingManager.tableIndex address) = 0) :
    PagingManager.getPage kMalloc pm address true dir
      = some (some ((kMalloc pm sizeofPageTable 1).1, PagingManager.pageIndex address),
          { pageTablesVirtual_ := fun i =>
              if i = PagingManager.tableIndex address then (kMalloc pm sizeofPageTable 1).1
              else dir.pageTablesVirtual_ i
            pageTablesPhysical_ := fun i =>
              if i = PagingManager.tableIndex address then
                (kMalloc pm sizeofPageTable 1).1 ||| 0x7
              else dir.pageTablesPhysical_ i },
          (kMalloc pm sizeofPageTable 1).2) := by
  unfold PagingManager.getPage index?
  rw [if_pos h, if_pos (pageIndex_lt address)]
  simp only [ht, ne_eq, not_true_eq_false, if_false, if_true]

/-- With the directory index in range and no table in the slot,
`getPage(address, 0, dir)` returns null and changes nothing. -/
theorem getPage_missing (kMalloc : KMalloc) (pm : PlacementMemoryManager)
    (address : Nat) (dir : PageDirectory)
    (h : PagingManager.tableIndex address < directoryLength)
    (ht : dir.pageTablesVirtual_ (PagingManager.tableIndex address) = 0) :
    PagingManager.getPage kMalloc pm address false dir = some (none, dir, pm) := by
  unfold PagingManager.getPage index?
  rw [if_pos h, if_pos (pageIndex_lt address)]
  simp only [ht, ne_eq, not_true_eq_false, if_false, Bool.false_eq_true]

/-- C14 (the code's address split): `getPage` uses directory slot
`(address | 0x1000) / 1024` and table entry `(address | 0x1000) % 1024`.  For
address `0x3000` that is slot 12 and entry 0, where bits 22..31 give slot 0 and
bits 12..21 give entry 3; with `make` set the new table is installed in slot 12
and slot 0 stays empty. -/
theorem getPage_address_split :
    (∀ address, PagingManager.tableIndex address = (address ||| 0x1000) / 1024 ∧
        PagingManager.pageIndex address = (address ||| 0x1000) % 1024) ∧
      PagingManager.tableIndex 0x3000 = 12 ∧ 0x3000 >>> 22 = 0 ∧
      PagingManager.pageIndex 0x3000 = 0 ∧ (0x3000 >>> 12) &&& 0x3ff = 3 ∧
      (PagingManager.getPage PlacementMemoryManager.kMalloc ⟨0x10000⟩ 0x3000 true
          emptyDirectory).map
          (fun r => (r.1, r.2.1.pageTablesVirtual_ 12, r.2.1.pageTablesVirtual_ 0))
        = some (some (0x10000, 0), 0x10000, 0) := by
  refine ⟨fun _ => ⟨rfl, rfl⟩, by decide, by decide, by decide, by decide, by decide⟩

/-- On the bounded arrays: for an address whose directory index
`(address | 0x1000) / 1024` is below 1024 and a `kMalloc` that returns non-null
storage, two consecutive `getPage(address, 1, dir)` return the same entry and
the second call changes neither the directory nor the allocator.  For address
`0x100000` the index is 1028, outside the arrays. -/
theorem getPage_create_twice_bounded :
    (∀ (kMalloc : KMalloc) (pm : PlacementMemoryManager) (address : Nat)
        (dir : PageDirectory),
        PagingManager.tableIndex address < directoryLength →
        (kMalloc pm sizeofPageTable 1).1 ≠ 0 →
        ∃ ref dir' pm',
          PagingManager.getPage kMalloc pm address true dir = some (some ref, dir', pm') ∧
          PagingManager.getPage kMalloc pm' address true dir' = some (some ref, dir', pm')) ∧
      PagingManager.tableIndex 0x100000 = 1028 ∧
      (∀ (kMalloc : KMalloc) (pm : PlacementMemoryManager) (dir : PageDirectory),
        PagingManager.getPage kMalloc pm 0x100000 true dir = none) := by
  refine ⟨?_, by decide, ?_⟩
  · intro kMalloc pm address dir h hnn
    by_cases ht : dir.pageTablesVirtual_ (PagingManager.tableIndex address) = 0
    · refine ⟨_, _, _, getPage_create kMalloc pm address dir h ht, ?_⟩
      rw [getPage_present kMalloc _ address true _ h (by simpa using hnn)]
      simp
    · exact ⟨_, _, _, getPage_present kMalloc pm address true dir h ht,
        getPage_present kMalloc pm address true dir h ht⟩
  · intro kMalloc pm dir
    exact getPage_out_of_range kMalloc pm 0x100000 true dir (by decide)

/-- C16 (lockstep where the index is in range, and the code at 1 MiB): for an
address whose directory index is below 1024, `getPage` returns; if before the
call every slot `i` with a table has
`pageTablesPhysical_[i] = pageTablesVirtual_[i] | 0x7`, so it has afterwards; no
slot other than the index changes in either array; and when a table is created
both arrays are written at the index.  For address `0x100400` the index is
1029, outside both arrays, and the call is undefined. -/
theorem getPage_lockstep :
    (∀ (kMalloc : KMalloc) (pm : PlacementMemoryManager) (address : Nat) (make : Bool)
        (dir : PageDirectory),
        PagingManager.tableIndex address < directoryLength →
        ∃ r dir' pm', PagingManager.getPage kMalloc pm address make dir = some (r, dir', pm') ∧
          ((∀ i, i < directoryLength → dir.pageTablesVirtual_ i ≠ 0 →
              dir.pageTablesPhysical_ i = dir.pageTablesVirtual_ i ||| 0x7) →
            ∀ i, i < directoryLength → dir'.pageTablesVirtual_ i ≠ 0 →
              dir'.pageTablesPhysical_ i = dir'.pageTablesVirtual_ i ||| 0x7) ∧
          (∀ i, i ≠ PagingManager.tableIndex address →
            dir'.pageTablesVirtual_ i = dir.pageTablesVirtual_ i ∧
              dir'.pageTablesPhysical_ i = dir.pageTablesPhysical_ i) ∧
          (dir.pageTablesVirtual_ (PagingManager.tableIndex address) = 0 → make = true →
            dir'.pageTablesVirtual_ (PagingManager.tableIndex address)
                = (kMalloc pm sizeofPageTable 1).1 ∧
              dir'.pageTablesPhysical_ (PagingManager.tableIndex address)
                = (kMalloc pm sizeofPageTable 1).1 ||| 0x7)) ∧
      PagingManager.tableIndex 0x100400 = 1029 ∧
      (∀ (kMalloc : KMalloc) (pm : PlacementMemoryManager) (make : Bool)
        (dir : PageDirectory),
        PagingManager.getPage kMalloc pm 0x100400 make dir = none) := by
  refine ⟨?_, by decide, ?_⟩
  · intro kMalloc pm address make dir h
    by_cases ht : dir.pageTablesVirtual_ (PagingManager.tableIndex address) = 0
    · cases make
      · refine ⟨_, _, _, getPage_missing kMalloc pm address dir h ht, fun hinv => hinv,
          fun i _ => ⟨rfl, rfl⟩, ?_⟩
        intro _ hm
        exact absurd hm (by simp)
      · refine ⟨_, _, _, getPage_create kMalloc pm address dir h ht, ?_, ?_, ?_⟩
        · intro hinv i hi hne
          by_cases hit : i = PagingManager.tableIndex address
          · simp only [hit, if_true]
          · simp only [hit, if_false] at hne ⊢
            exact hinv i hi hne
        · intro i hit
          simp only [hit, if_false, and_self]
        · intro _ _
          simp only [if_true, and_self]
    · refine ⟨_, _, _, getPage_present kMalloc pm address make dir h ht, fun hinv => hinv,
        fun i _ => ⟨rfl, rfl⟩, ?_⟩
      intro h0
      exact absurd h0 ht
  · intro kMalloc pm make dir
    exact getPage_out_of_range kMalloc pm 0x100400 make dir (by decide)


/-- C17 (lookup without create, and the code's choice of slot): when the slot
`getPage` consults, `(address | 0x1000) / 1024`, is inside the directory and
holds no table, `getPage(address, 0, dir)` returns null and changes neither the
directory nor the allocator.  For address 0 that slot is 4, not 0: in a
directory whose only table is in slot 4, so that no table covers the first
4 MiB, `getPage(0, 0, dir)` returns entry 0 of the table in slot 4.  For address
`0x200000` the slot is outside the directory and the call is undefined. -/
theorem getPage_lookup_missing :
    (∀ (kMalloc : KMalloc) (pm : PlacementMemoryManager) (address : Nat)
        (dir : PageDirectory),
        PagingManager.tableIndex address < directoryLength →
        dir.pageTablesVirtual_ (PagingManager.tableIndex address) = 0 →
        PagingManager.getPage kMalloc pm address false dir = some (none, dir, pm)) ∧
      slot4Directory.pageTablesVirtual_ (0 >>> 22) = 0 ∧
      (PagingManager.getPage PlacementMemoryManager.kMalloc ⟨0x10000⟩ 0 false
          slot4Directory).map (fun r => r.1) = some (some (0x5000, 0)) ∧
      (∀ (kMalloc : KMalloc) (pm : PlacementMemoryManager) (dir : PageDirectory),
        PagingManager.getPage kMalloc pm 0x200000 false dir = none) := by
  refine ⟨getPage_missing, by decide, by decide, ?_⟩
  intro kMalloc pm dir
  exact getPage_out_of_range kMalloc pm 0x200000 false dir (by decide)

/-- C20 (index bounds in the code): the entry index `(address | 0x1000) % 1024`
is always below 1024, but the directory index `(address | 0x1000) / 1024` is
below 1024 only for addresses below `2 ^ 20`; for address `0xC0000000` it is
3145732, the total index returns `none` and `getPage` is undefined. -/
theorem getPage_index_bounds :
    (∀ address, PagingManager.pageIndex address < tableLength) ∧
      (∀ address, PagingManager.tableIndex address < directoryLength ↔ address < 2 ^ 20) ∧
      PagingManager.tableIndex 0xC0000000 = 3145732 ∧
      index? directoryLength (PagingManager.tableIndex 0xC0000000) = none ∧
      (∀ (kMalloc : KMalloc) (pm : PlacementMemoryManager) (make : Bool)
        (dir : PageDirectory),
        PagingManager.getPage kMalloc pm 0xC0000000 make dir = none) := by
  refine ⟨pageIndex_lt, tableIndex_lt_iff, by decide, by decide, ?_⟩
  intro kMalloc pm make dir
  exact getPage_out_of_range kMalloc pm 0xC0000000 make dir (by decide)

/-! ## The constructor of PagingManager -/

theorem mapLoop_mono (kMalloc : KMalloc) :
    ∀ (fuel i : Nat) (m : PagingManager) (r : Option PagingManager),
      PagingManager.mapLoop kMalloc fuel i m = some r →
      PagingManager.mapLoop kMalloc (fuel + 1) i m = some r := by
  intro fuel
  induction fuel with
  | zero => intro i m r h; simp [PagingManager.mapLoop] at h
  | succ f ih =>
    intro i m r h
    unfold PagingManager.mapLoop at h
    unfold PagingManager.mapLoop
    by_cases hb : i < m.placementMemoryManager.placementAddress_
    · rw [if_pos hb] at h ⊢
      cases hg : PagingManager.getPage kMalloc m.placementMemoryManager i true
          m.kernelDirectory with
      | none => rw [hg] at h; exact h
      | some q =>
        obtain ⟨e, dir, pm⟩ := q
        cases e with
        | none => rw [hg] at h; exact h
        | some ps =>
          obtain ⟨p, s⟩ := ps
          rw [hg] at h
          simp only at h ⊢
          cases ha : Frames.allocateFrame m.frames (m.pages_ p s) true false with
          | none => rw [ha] at h; exact h
          | some fp =>
            obtain ⟨fr, pd⟩ := fp
            rw [ha] at h
            exact ih _ _ r h
    · rw [if_neg hb] at h ⊢
      exact h

theorem mapLoop_mono_le (kMalloc : KMalloc) (fuel i : Nat) (m : PagingManager)
    (r : Option PagingManager) (h : PagingManager.mapLoop kMalloc fuel i m = some r) :
    ∀ extra, PagingManager.mapLoop kMalloc (fuel + extra) i m = some r := by
  intro extra
  induction extra with
  | zero => exact h
  | succ e ih => exact mapLoop_mono kMalloc (fuel + e) i m r ih

theorem eq_some_none_of_isSome {α : Type} (x : Option (Option α))
    (h : x.map Option.isSome = some false) : x = some none := by
  cases x with
  | none => simp at h
  | some y =>
    cases y with
    | none => rfl
    | some a => simp at h

set_option maxRecDepth 100000 in
theorem construct_one_mib_isSome :
    (PagingManager.construct PlacementMemoryManager.kMalloc 257 0x800000 (fun _ => 0)
      emptyDirectory zeroPages ⟨0x100000⟩ 0).map Option.isSome = some false := by
  decide

/-- C18 (the code on the 8 MiB / 1 MiB bootstrap): with capacity `0x800000`,
the watermark at `0x100000`, zeroed memory and the loop counter starting at 0,
the first `getPage(0, 1, kernelDirectory)` installs its table in slot 4 and
leaves slot 0 empty, and the mapping loop reaches address `0x100000`, whose
directory index 1028 lies outside the arrays: the constructor does not end in
a defined state, whatever the fuel above 257 iterations. -/
theorem construct_one_mib_undefined :
    (PagingManager.getPage PlacementMemoryManager.kMalloc ⟨0x103000⟩ 0 true
        emptyDirectory).map
        (fun r => (r.2.1.pageTablesVirtual_ 0, r.2.1.pageTablesVirtual_ 4))
      = some (0, 0x103000) ∧
      PagingManager.tableIndex 0x100000 = 1028 ∧
      (∀ extra, PagingManager.construct PlacementMemoryManager.kMalloc (257 + extra) 0x800000
        (fun _ => 0) emptyDirectory zeroPages ⟨0x100000⟩ 0 = some none) := by
  refine ⟨by decide, by decide, ?_⟩
  intro extra
  have h := eq_some_none_of_isSome _ construct_one_mib_isSome
  unfold PagingManager.construct at h ⊢
  exact mapLoop_mono_le _ _ _ _ _ h extra

/-- C19 (the code after a bootstrap that completes): with capacity `0x800000`,
the watermark at `0x2000`, zeroed memory and the loop counter starting at 0, the
constructor ends with the watermark at `0xA000`.  A lookup of address 0 then
returns an entry with frame 1, a lookup of `0x4000` an entry with frame 3 (both
present, read-only, userMode), where identity mapping asks for frames 0 and
4. -/
theorem construct_not_identity :
    (PagingManager.construct PlacementMemoryManager.kMalloc 64 0x800000 (fun _ => 0)
        emptyDirectory zeroPages ⟨0x2000⟩ 0).map
        (fun r => r.map (fun m => m.placementMemoryManager.placementAddress_))
      = some (some 0xA000) ∧
      ((PagingManager.construct PlacementMemoryManager.kMalloc 64 0x800000 (fun _ => 0)
        emptyDirectory zeroPages ⟨0x2000⟩ 0).bind
        (fun r => r.bind (fun m => lookupAfter m 0))) = some (1, true, false, true) ∧
      ((PagingManager.construct PlacementMemoryManager.kMalloc 64 0x800000 (fun _ => 0)
        emptyDirectory zeroPages ⟨0x2000⟩ 0).bind
        (fun r => r.bind (fun m => lookupAfter m 0x4000))) = some (3, true, false, true) ∧
      0 >>> 12 = 0 ∧ 0x4000 >>> 12 = 4 := by
  refine ⟨by decide, by decide, by decide, by decide, by decide⟩

/-! ## getPage on memory words -/

theorem raw_slots_ne (vB pB t : Nat) (hv : vB < 2 ^ 30) (hp : pB < 2 ^ 30) (hne : vB ≠ pB) :
    (vB + t) % 2 ^ 30 ≠ (pB + t) % 2 ^ 30 := by
  have e : (2 : Nat) ^ 30 = 1073741824 := by norm_num
  rw [e] at hv hp ⊢
  omega

/-- With a table pointer in the word of the slot, `getPageRaw` returns the
entry and writes nothing. -/
theorem getPageRaw_present (kMalloc : KMalloc) (pm : PlacementMemoryManager) (mem : Nat → Nat)
    (vB pB address : Nat) (make : Bool)
    (h : mem ((vB + PagingManager.tableIndex address) % 2 ^ 30) ≠ 0) :
    PagingManager.getPageRaw kMalloc pm mem vB pB address make
      = (some (mem ((vB + PagingManager.tableIndex address) % 2 ^ 30),
          PagingManager.pageIndex address), mem, pm) := by
  unfold PagingManager.getPageRaw
  simp only [h, ne_eq, not_false_eq_true, if_true]

/-- Where the directory index is inside the arrays, `getPageRaw` returns the
entry and the allocator that `getPage` returns on the arrays read from the
same memory. -/
theorem getPageRaw_agrees (kMalloc : KMalloc) (pm : PlacementMemoryManager) (mem : Nat → Nat)
    (vB pB address : Nat) (make : Bool) (hv : vB < 2 ^ 30) (hp : pB < 2 ^ 30) (hne : vB ≠ pB)
    (h : PagingManager.tableIndex address < directoryLength) :
    (PagingManager.getPage kMalloc pm address make
        ⟨fun i => mem ((vB + i) % 2 ^ 30), fun i => mem ((pB + i) % 2 ^ 30)⟩).map
        (fun r => (r.1, r.2.2))
      = some ((PagingManager.getPageRaw kMalloc pm mem vB pB address make).1,
          (PagingManager.getPageRaw kMalloc pm mem vB pB address make).2.2) := by
  have hvp := raw_slots_ne vB pB (PagingManager.tableIndex address) hv hp hne
  have e : (2 : Nat) ^ 30 = 1073741824 := by norm_num
  by_cases ht : mem ((vB + PagingManager.tableIndex address) % 2 ^ 30) = 0
  · cases make
    · rw [getPage_missing kMalloc pm address _ h ht]
      unfold PagingManager.getPageRaw
      rw [e] at ht
      simp [ht]
    · rw [getPage_create kMalloc pm address _ h ht]
      unfold PagingManager.getPageRaw
      rw [e] at ht hvp
      simp [ht, hvp]
  · rw [getPage_present kMalloc pm address make _ h ht, getPageRaw_present _ _ _ _ _ _ _ ht]
    simp

end FalconOS
